import Mathlib

/-!
# rocBLAS `dot`: batched two-phase reduction

A shallow embedding of `library/src/blas1/rocblas_dot.hpp` (wavefront and block reducers, the
three work-partition kernels, the cross-block reduction kernel and the launching template
`rocblas_internal_dot_template`) together with the status expectation of
`clients/include/testing_nrm2_batched.hpp`.

Conventions of the embedding.

* Elements live in a commutative ring `R` (exact arithmetic, `V = T`); `conj : R → R` stands for
  complex conjugation.
* Input vectors are read from `Device.mem : Int → R`, addressed in elements; a pointer to `T` is an
  `Int`.  The two output buffers (`workspace`, `results`) are addressed by `Loc`.
* A kernel is a function of the block index that maps output memory to output memory; the value
  every thread of the block holds is a function `Nat → R` of `hipThreadIdx_x` (SIMT lock step).
* Thread indices and loop counters are naturals; the 32-bit counters of the source agree with
  them as long as `n + hipGridDim_x * hipBlockDim_x * WIN < 2^31`.  The two places where the
  source narrows an integer to 32 bits for small `n` already are kept: the products `i * incx`,
  `i * incy` (C `int` by `int`) and the kernel parameter `rocblas_int stridey`; both go through
  `wrap32`.
-/

namespace RocblasDot

/-! ## Machine integers -/

/-- Value of an integer after narrowing to a 32-bit two's-complement `int` (wrap-around). -/
def wrap32 (z : Int) : Int := (z + 2147483648) % 4294967296 - 2147483648

/-- The loop `while(ax >>= 1) v++` of `rocblas_log2ui`; the first argument bounds the number of
iterations (an `unsigned int` is exhausted after 32 shifts). -/
def rocblas_log2ui_loop : Nat → Nat → Nat → Nat
  | 0, _, v => v
  | fuel + 1, ax, v =>
    if ax >>> 1 ≠ 0 then rocblas_log2ui_loop fuel (ax >>> 1) (v + 1) else v

/-- Source `rocblas_log2ui(int x)`: `ax = (unsigned int)x; v = 0; while(ax >>= 1) v++; return v`. -/
def rocblas_log2ui (x : Int) : Nat :=
  rocblas_log2ui_loop 32 (x % 4294967296).toNat 0

/-! ## Generic loops -/

/-- Counted loop `for(k = 0; k < count; k++) a = body k a`. -/
def for_range {α : Type} (body : Nat → α → α) : Nat → α → α
  | 0, a => a
  | k + 1, a => body k (for_range body k a)

/-- Strided loop `for(; j < bound && i < n; j++, i += inc) a = body i a`.  With `bound = WIN` it is
the loop of `rocblas_dot_kernel`; the grid-stride loops `for(; i < end; i += inc)` use it with a
bound that is never reached when `inc > 0`. -/
def strided_loop {α : Type} (body : Nat → α → α) (n inc : Nat) : Nat → Nat → α → α
  | 0, _, a => a
  | k + 1, i, a => if i < n then strided_loop body n inc k (i + inc) (body i a) else a

/-! ## Device, memory and events -/

/-- Status codes of `rocblas_status` that occur in the embedded code and test. -/
inductive rocblas_status where
  | success
  | invalid_handle
  | not_implemented
  | invalid_pointer
  | invalid_size
  | memory_error
  | internal_error
  | size_unchanged
  deriving DecidableEq, Repr

/-- Pointer mode of the handle. -/
inductive rocblas_pointer_mode where
  | host
  | device
  deriving DecidableEq, Repr

/-- The part of `rocblas_handle` read by the template. -/
structure rocblas_handle where
  pointer_mode : rocblas_pointer_mode
  is_device_memory_size_query : Bool
  deriving DecidableEq, Repr

/-- Everything the code reads from its environment: the wavefront width `warpSize`, the
(uninitialised) contents of the `__shared__` array `psums` when a block starts, the input memory,
the pointer arrays of the batched interface, and the status `RETURN_IF_HIP_ERROR` would return for
the two checked HIP calls (`success` when the call succeeds). -/
structure Device (R : Type) where
  warpSize : Nat
  shared : Nat → R
  mem : Int → R
  ptrs : Int → Nat → Int
  hipMemset_status : rocblas_status
  hipMemcpyAsync_status : rocblas_status

/-- An element of one of the two output buffers of a call. -/
inductive Loc where
  | workspace (i : Nat)
  | results (i : Nat)
  deriving DecidableEq, Repr

/-- Pointer arithmetic `p + k` inside a buffer. -/
def Loc.add : Loc → Nat → Loc
  | Loc.workspace i, k => Loc.workspace (i + k)
  | Loc.results i, k => Loc.results (i + k)

/-- Store `*p = v`. -/
def write {R : Type} (m : Loc → R) (p : Loc) (v : R) : Loc → R :=
  fun q => if q = p then v else m q

/-- The four kernels of the file. -/
inductive Kernel where
  | dot_inc1
  | dot
  | dot_magsq
  | dot_reduce
  deriving DecidableEq, Repr

/-- Operations issued by the template, in program order.  A launch records the grid, the block
size and the two buffer arguments (`workspace`/`in` and `out`). -/
inductive Event where
  | launch (k : Kernel) (gridDim_x gridDim_y blockDim_x : Nat) (workspace out : Loc)
  | hipMemset (dst : Loc) (count : Nat)
  | host_store (dst : Loc)
  | hipMemcpyAsync (dst src : Loc) (count : Nat)
  deriving DecidableEq, Repr

/-- Output memory and the operations issued so far. -/
structure State (R : Type) where
  mem : Loc → R
  log : List Event

/-- Whether an event is a kernel launch. -/
def Event.is_launch : Event → Bool
  | Event.launch _ _ _ _ _ _ => true
  | _ => false

/-- Kernel, grid and block size of a launch; `none` for the other operations. -/
def Event.launch_shape : Event → Option (Kernel × Nat × Nat × Nat)
  | Event.launch k gx gy bd _ _ => some (k, gx, gy, bd)
  | _ => none

section Code

variable {R : Type} [CommRing R]

/-- Modelled from the spec: `load_ptr_batch` of utility.hpp, which is not among the sources.  A
vector descriptor holds a base address or an array of per-batch-entry base addresses: for a plain
pointer the entry is `p + block * stride + offset`, for a pointer array it is `p[block] + offset`. -/
def load_ptr_batch (dev : Device R) (batched : Bool) (p : Int) (block : Nat)
    (offset stride : Int) : Int :=
  if batched then dev.ptrs p block + offset else p + block * stride + offset

/-- Modelled from the spec: `rocblas_reduction_kernel_block_count` of
reduction_strided_batched.hpp, which is not among the sources: `ceil(n / NB)`, minimum 1.  It is
the formula of the commented-out `rocblas_dot_kernel_block_count` of the source. -/
def rocblas_reduction_kernel_block_count (n : Int) (NB : Nat) : Nat :=
  ((if n ≤ 0 then 1 else n) - 1).toNat / NB + 1

/-- Source `rocblas_dot_WIN(size_t nb)`. -/
def rocblas_dot_WIN (nb : Nat) : Nat :=
  if nb ≥ 8 then 2 else if nb ≥ 4 then 4 else 8

/-- Source `rocblas_dot_WIN<T>()`, as a function of `sizeof(T)`. -/
def rocblas_dot_WIN_T (sizeofT : Nat) : Nat :=
  let nb := sizeofT
  if nb ≥ 8 then 2 else if nb ≥ 4 then 4 else 8

/-! ## Reducers -/

/-- HIP intrinsic `__shfl_down(val, offset)` with the default width `warpSize = G`: the lane reads
the value held `offset` lanes above it, and keeps its own value when that lane would lie outside
the wavefront. -/
def shfl_down (G : Nat) (val : Nat → R) (offset : Nat) (tid : Nat) : R :=
  if tid % G + offset < G then val (tid + offset) else val tid

/-- The loop of `wavefront_reduce`: `val += __shfl_down(val, offset); offset >>= 1`. -/
def wavefront_reduce_loop (G : Nat) : Nat → Nat → (Nat → R) → Nat → R
  | 0, _, val => val
  | k + 1, offset, val =>
    wavefront_reduce_loop G k (offset >>> 1) (fun t => val t + shfl_down G val offset t)

/-- Source `wavefront_reduce<N>(val)`, run by all lanes in lock step.  For `WFBITS = 0` the source
shifts by `-1`; the loop body is not entered and the offset is unused. -/
def wavefront_reduce (G N : Nat) (val : Nat → R) : Nat → R :=
  let WFBITS := rocblas_log2ui (N : Int)
  wavefront_reduce_loop G WFBITS (1 <<< (WFBITS - 1)) val

/-- Source `rocblas_dot_block_reduce<NB>(val)`: the value every thread of the block returns.
`psums1` is the shared array after the first barrier, `psums2` after the second. -/
def rocblas_dot_block_reduce (dev : Device R) (NB : Nat) (val : Nat → R) : Nat → R :=
  let G := dev.warpSize
  let psums1 : Nat → R := fun s => if s < G ∧ s < NB then 0 else dev.shared s
  let val1 := wavefront_reduce G G val
  let psums2 : Nat → R := fun s => if s * G < NB then val1 (s * G) else psums1 s
  let num_wavefronts := NB / G
  let val2 : Nat → R := fun t => if t < num_wavefronts then psums2 (t % G) else 0
  fun t => if t / G = 0 then wavefront_reduce G num_wavefronts val2 t else val2 t

/-! ## Kernels -/

/-- The product `V(y[iy]) * V(CONJ ? conj(x[ix]) : x[ix])`. -/
def dot_term (dev : Device R) (CONJ : Bool) (conj : R → R) (x y ix iy : Int) : R :=
  dev.mem (y + iy) * (if CONJ then conj (dev.mem (x + ix)) else dev.mem (x + ix))

/-- Per-thread accumulation of `rocblas_dot_kernel_inc1` (the value of `sum` before the block
reduction). -/
def rocblas_dot_kernel_inc1_sum (dev : Device R) (WIN : Nat) (CONJ : Bool) (conj : R → R)
    (batched : Bool) (n : Nat) (xa shiftx stridex ya shifty stridey : Int)
    (hipGridDim_x hipBlockDim_x hipBlockIdx_x hipBlockIdx_y hipThreadIdx_x : Nat) : R :=
  let x := load_ptr_batch dev batched xa hipBlockIdx_y shiftx stridex
  let y := load_ptr_batch dev batched ya hipBlockIdx_y shifty (wrap32 stridey)
  let inc := hipBlockDim_x * hipGridDim_x * WIN
  let i := (hipBlockIdx_x * hipBlockDim_x + hipThreadIdx_x) * WIN
  let remainder := n % WIN
  let end_ := n - remainder
  let sum := strided_loop
    (fun i sum => for_range (fun j s => s + dot_term dev CONJ conj x y (i + j) (i + j)) WIN sum)
    end_ inc end_ i 0
  if hipBlockIdx_x = 0 ∧ hipThreadIdx_x < remainder then
    sum + dot_term dev CONJ conj x y ((n - 1 - hipThreadIdx_x : Nat) : Int)
      ((n - 1 - hipThreadIdx_x : Nat) : Int)
  else sum

/-- Per-thread accumulation of `rocblas_dot_kernel`. -/
def rocblas_dot_kernel_sum (dev : Device R) (WIN : Nat) (CONJ : Bool) (conj : R → R)
    (batched : Bool) (n : Nat) (xa shiftx incx stridex ya shifty incy stridey : Int)
    (hipGridDim_x hipBlockDim_x hipBlockIdx_x hipBlockIdx_y hipThreadIdx_x : Nat) : R :=
  let x := load_ptr_batch dev batched xa hipBlockIdx_y shiftx stridex
  let y := load_ptr_batch dev batched ya hipBlockIdx_y shifty (wrap32 stridey)
  let i := hipBlockIdx_x * hipBlockDim_x + hipThreadIdx_x
  let inc := hipBlockDim_x * hipGridDim_x
  strided_loop
    (fun i sum => sum + dot_term dev CONJ conj x y (wrap32 (i * incx)) (wrap32 (i * incy)))
    n inc WIN i 0

/-- Per-thread accumulation of `rocblas_dot_kernel_magsq`. -/
def rocblas_dot_kernel_magsq_sum (dev : Device R) (WIN : Nat) (CONJ : Bool) (conj : R → R)
    (batched : Bool) (n : Nat) (xa shiftx incx stridex : Int)
    (hipGridDim_x hipBlockDim_x hipBlockIdx_x hipBlockIdx_y hipThreadIdx_x : Nat) : R :=
  let x := load_ptr_batch dev batched xa hipBlockIdx_y shiftx stridex
  let i := hipBlockIdx_x * hipBlockDim_x + hipThreadIdx_x
  let inc := hipBlockDim_x * hipGridDim_x
  strided_loop
    (fun i sum => sum + dev.mem (x + wrap32 (i * incx))
      * (if CONJ then conj (dev.mem (x + wrap32 (i * incx))) else dev.mem (x + wrap32 (i * incx))))
    n inc WIN i 0

/-- Per-thread accumulation of `rocblas_dot_kernel_reduce`, reading the partial sums from the
output memory `m`. -/
def rocblas_dot_kernel_reduce_sum (WIN : Nat) (n_sums : Nat) (inp : Loc) (m : Loc → R)
    (hipGridDim_x hipBlockDim_x hipBlockIdx_y hipThreadIdx_x : Nat) : R :=
  let offset := hipBlockIdx_y * n_sums
  let inp := inp.add offset
  let inc := hipBlockDim_x * hipGridDim_x * WIN
  let i := hipThreadIdx_x * WIN
  let remainder := n_sums % WIN
  let end_ := n_sums - remainder
  let sum := strided_loop
    (fun i sum => for_range (fun j s => s + m (inp.add (i + j))) WIN sum) end_ inc end_ i 0
  if hipThreadIdx_x < remainder then sum + m (inp.add (n_sums - 1 - hipThreadIdx_x)) else sum

/-- The common tail of the three work-partition kernels, executed by thread 0 of the block:
`workspace[hipBlockIdx_x + hipBlockIdx_y * hipGridDim_x] = sum;`
`if(hipGridDim_x == 1) out[hipBlockIdx_y] = T(sum);`. -/
def store_block_sum (sum : R) (workspace out : Loc) (hipGridDim_x hipBlockIdx_x hipBlockIdx_y : Nat)
    (m : Loc → R) : Loc → R :=
  let m1 := write m (workspace.add (hipBlockIdx_x + hipBlockIdx_y * hipGridDim_x)) sum
  if hipGridDim_x = 1 then write m1 (out.add hipBlockIdx_y) sum else m1

/-- Source `rocblas_dot_kernel_inc1<NB, WIN, CONJ, T>`: effect of one block on output memory. -/
def rocblas_dot_kernel_inc1 (dev : Device R) (NB WIN : Nat) (CONJ : Bool) (conj : R → R)
    (batched : Bool) (n : Nat) (xa shiftx stridex ya shifty stridey : Int) (workspace out : Loc)
    (hipGridDim_x hipBlockDim_x hipBlockIdx_x hipBlockIdx_y : Nat) (m : Loc → R) : Loc → R :=
  let sum := rocblas_dot_block_reduce dev NB
    (rocblas_dot_kernel_inc1_sum dev WIN CONJ conj batched n xa shiftx stridex ya shifty stridey
      hipGridDim_x hipBlockDim_x hipBlockIdx_x hipBlockIdx_y)
  store_block_sum (sum 0) workspace out hipGridDim_x hipBlockIdx_x hipBlockIdx_y m

/-- Source `rocblas_dot_kernel<NB, WIN, CONJ, T>`: effect of one block on output memory. -/
def rocblas_dot_kernel (dev : Device R) (NB WIN : Nat) (CONJ : Bool) (conj : R → R)
    (batched : Bool) (n : Nat) (xa shiftx incx stridex ya shifty incy stridey : Int)
    (workspace out : Loc)
    (hipGridDim_x hipBlockDim_x hipBlockIdx_x hipBlockIdx_y : Nat) (m : Loc → R) : Loc → R :=
  let sum := rocblas_dot_block_reduce dev NB
    (rocblas_dot_kernel_sum dev WIN CONJ conj batched n xa shiftx incx stridex ya shifty incy
      stridey hipGridDim_x hipBlockDim_x hipBlockIdx_x hipBlockIdx_y)
  store_block_sum (sum 0) workspace out hipGridDim_x hipBlockIdx_x hipBlockIdx_y m

/-- Source `rocblas_dot_kernel_magsq<NB, WIN, CONJ, T>`: effect of one block on output memory. -/
def rocblas_dot_kernel_magsq (dev : Device R) (NB WIN : Nat) (CONJ : Bool) (conj : R → R)
    (batched : Bool) (n : Nat) (xa shiftx incx stridex : Int) (workspace out : Loc)
    (hipGridDim_x hipBlockDim_x hipBlockIdx_x hipBlockIdx_y : Nat) (m : Loc → R) : Loc → R :=
  let sum := rocblas_dot_block_reduce dev NB
    (rocblas_dot_kernel_magsq_sum dev WIN CONJ conj batched n xa shiftx incx stridex
      hipGridDim_x hipBlockDim_x hipBlockIdx_x hipBlockIdx_y)
  store_block_sum (sum 0) workspace out hipGridDim_x hipBlockIdx_x hipBlockIdx_y m

/-- Source `rocblas_dot_kernel_reduce<NB, WIN>`: effect of one block on output memory
(`hipBlockIdx_x` is not read by the kernel). -/
def rocblas_dot_kernel_reduce (dev : Device R) (NB WIN : Nat) (n_sums : Nat) (inp out : Loc)
    (hipGridDim_x hipBlockDim_x _hipBlockIdx_x hipBlockIdx_y : Nat) (m : Loc → R) : Loc → R :=
  let sum := rocblas_dot_block_reduce dev NB
    (rocblas_dot_kernel_reduce_sum WIN n_sums inp m hipGridDim_x hipBlockDim_x hipBlockIdx_y)
  write m (out.add hipBlockIdx_y) (sum 0)

/-! ## Host side -/

/-- Launch `hipLaunchKernelGGL(kernel, dim3(gridDim_x, gridDim_y), dim3(blockDim_x), ...)`: every
block of the grid runs once (here in the order of `hipBlockIdx_y`, then `hipBlockIdx_x`), and the
launch is recorded. -/
def hipLaunchKernelGGL (k : Kernel)
    (kernel : Loc → Loc → Nat → Nat → Nat → Nat → (Loc → R) → Loc → R)
    (gridDim_x gridDim_y blockDim_x : Nat) (workspace out : Loc) (st : State R) : State R :=
  { mem := for_range
      (fun blockIdx_y m =>
        for_range (fun blockIdx_x m =>
          kernel workspace out gridDim_x blockDim_x blockIdx_x blockIdx_y m) gridDim_x m)
      gridDim_y st.mem
    log := st.log ++ [Event.launch k gridDim_x gridDim_y blockDim_x workspace out] }

/-- Call `hipMemset(dst, 0, count * sizeof(T))` that succeeded: `count` elements become zero. -/
def hipMemset_zero (dst : Loc) (count : Nat) (st : State R) : State R :=
  { mem := for_range (fun i m => write m (dst.add i) 0) count st.mem
    log := st.log ++ [Event.hipMemset dst count] }

/-- Host statement `results[i] = T(0)`. -/
def host_store_zero (dst : Loc) (i : Nat) (st : State R) : State R :=
  { mem := write st.mem (dst.add i) 0
    log := st.log ++ [Event.host_store (dst.add i)] }

/-- Call `hipMemcpyAsync(dst, src, sizeof(T) * count, ...)` that succeeded. -/
def hipMemcpyAsync (dst src : Loc) (count : Nat) (st : State R) : State R :=
  { mem := for_range (fun i m => write m (dst.add i) (st.mem (src.add i))) count st.mem
    log := st.log ++ [Event.hipMemcpyAsync dst src count] }

/-- The caller's `results` pointer. -/
def results_ptr : Loc := Loc.results 0

/-- The caller's `workspace` pointer. -/
def workspace_ptr : Loc := Loc.workspace 0

/-- Lines 369-460 of `rocblas_internal_dot_template`: offset normalisation, grid shape, choice of
the output pointer, the phase-1 launch and the conditional phase-2 launch.  `n > 0` here; the
grid's second dimension and `size_t(batch_count)` are taken for a non-negative `batch_count`. -/
def dot_template_kernels (dev : Device R) (NB : Nat) (CONJ : Bool) (conj : R → R)
    (sizeofT : Nat) (batched : Bool) (handle : rocblas_handle) (n : Int)
    (x offsetx incx stridex y offsety incy stridey : Int) (batch_count : Int)
    (st : State R) : State R :=
  let WIN := rocblas_dot_WIN_T sizeofT
  let shiftx := if incx < 0 then offsetx - incx * (n - 1) else offsetx
  let shifty := if incy < 0 then offsety - incy * (n - 1) else offsety
  let blocks := rocblas_reduction_kernel_block_count n (NB * WIN)
  let offset := batch_count.toNat * blocks
  let output := if handle.pointer_mode ≠ rocblas_pointer_mode.device
    then workspace_ptr.add offset else results_ptr
  let st1 :=
    if x ≠ y ∨ incx ≠ incy ∨ offsetx ≠ offsety ∨ stridex ≠ stridey then
      if incx = 1 ∧ incy = 1 ∧ sizeofT ≥ 8 then
        hipLaunchKernelGGL Kernel.dot_inc1
          (rocblas_dot_kernel_inc1 dev NB WIN CONJ conj batched n.toNat x shiftx stridex
            y shifty stridey)
          blocks batch_count.toNat NB workspace_ptr output st
      else
        hipLaunchKernelGGL Kernel.dot
          (rocblas_dot_kernel dev NB WIN CONJ conj batched n.toNat x shiftx incx stridex
            y shifty incy stridey)
          blocks batch_count.toNat NB workspace_ptr output st
    else
      hipLaunchKernelGGL Kernel.dot_magsq
        (rocblas_dot_kernel_magsq dev NB WIN CONJ conj batched n.toNat x shiftx incx stridex)
        blocks batch_count.toNat NB workspace_ptr output st
  if handle.pointer_mode = rocblas_pointer_mode.device then
    if blocks > 1 then
      hipLaunchKernelGGL Kernel.dot_reduce (rocblas_dot_kernel_reduce dev NB WIN blocks)
        1 batch_count.toNat NB workspace_ptr results_ptr st1
    else st1
  else
    if blocks > 1 then
      hipLaunchKernelGGL Kernel.dot_reduce (rocblas_dot_kernel_reduce dev NB WIN blocks)
        1 batch_count.toNat NB workspace_ptr output st1
    else st1

/-- Source `rocblas_internal_dot_template<NB, CONJ, T, U>`: the status returned and the state
after the call.  A HIP call that fails returns its status at once and is taken to leave memory
as it was. -/
def rocblas_internal_dot_template (dev : Device R) (NB : Nat) (CONJ : Bool) (conj : R → R)
    (sizeofT : Nat) (batched : Bool) (handle : rocblas_handle) (n : Int)
    (x offsetx incx stridex y offsety incy stridey : Int) (batch_count : Int)
    (st : State R) : rocblas_status × State R :=
  if n ≤ 0 ∨ batch_count = 0 then
    if handle.is_device_memory_size_query then (rocblas_status.size_unchanged, st)
    else if handle.pointer_mode = rocblas_pointer_mode.device ∧ batch_count > 0 then
      if dev.hipMemset_status ≠ rocblas_status.success then (dev.hipMemset_status, st)
      else (rocblas_status.success, hipMemset_zero results_ptr batch_count.toNat st)
    else
      (rocblas_status.success,
        for_range (fun i s => host_store_zero results_ptr i s) batch_count.toNat st)
  else
    let st2 := dot_template_kernels dev NB CONJ conj sizeofT batched handle n
      x offsetx incx stridex y offsety incy stridey batch_count st
    if handle.pointer_mode = rocblas_pointer_mode.device then (rocblas_status.success, st2)
    else
      let blocks := rocblas_reduction_kernel_block_count n (NB * rocblas_dot_WIN_T sizeofT)
      let output := workspace_ptr.add (batch_count.toNat * blocks)
      if dev.hipMemcpyAsync_status ≠ rocblas_status.success then (dev.hipMemcpyAsync_status, st2)
      else (rocblas_status.success, hipMemcpyAsync results_ptr output batch_count.toNat st2)

/-! ## The template seen as one phase-1 launch and one optional phase-2 launch -/

/-- A phase-1 launch with `g` blocks per batch entry followed, when `g > 1`, by the cross-block
reduction of the `g` block sums of every entry: what lines 383-460 issue for `g = blocks`. -/
def launch_two_phase (dev : Device R) (NB WIN : Nat) (k : Kernel)
    (kernel : Loc → Loc → Nat → Nat → Nat → Nat → (Loc → R) → Loc → R)
    (g B : Nat) (output : Loc) (st : State R) : State R :=
  let st1 := hipLaunchKernelGGL k kernel g B NB workspace_ptr output st
  if g > 1 then
    hipLaunchKernelGGL Kernel.dot_reduce (rocblas_dot_kernel_reduce dev NB WIN g)
      1 B NB workspace_ptr output st1
  else st1

/-- The kernel the template launches in phase 1 (lines 383-436). -/
def template_kernel_id (sizeofT : Nat) (x offsetx incx stridex y offsety incy stridey : Int) :
    Kernel :=
  if x ≠ y ∨ incx ≠ incy ∨ offsetx ≠ offsety ∨ stridex ≠ stridey then
    if incx = 1 ∧ incy = 1 ∧ sizeofT ≥ 8 then Kernel.dot_inc1 else Kernel.dot
  else Kernel.dot_magsq

/-- Per-thread accumulation of the kernel the template launches in phase 1, with the arguments
the template passes. -/
def template_thread_sum (dev : Device R) (CONJ : Bool) (conj : R → R) (sizeofT : Nat)
    (batched : Bool) (n : Int) (x offsetx incx stridex y offsety incy stridey : Int) :
    Nat → Nat → Nat → Nat → Nat → R :=
  let WIN := rocblas_dot_WIN_T sizeofT
  let shiftx := if incx < 0 then offsetx - incx * (n - 1) else offsetx
  let shifty := if incy < 0 then offsety - incy * (n - 1) else offsety
  if x ≠ y ∨ incx ≠ incy ∨ offsetx ≠ offsety ∨ stridex ≠ stridey then
    if incx = 1 ∧ incy = 1 ∧ sizeofT ≥ 8 then
      rocblas_dot_kernel_inc1_sum dev WIN CONJ conj batched n.toNat x shiftx stridex
        y shifty stridey
    else
      rocblas_dot_kernel_sum dev WIN CONJ conj batched n.toNat x shiftx incx stridex
        y shifty incy stridey
  else
    rocblas_dot_kernel_magsq_sum dev WIN CONJ conj batched n.toNat x shiftx incx stridex

/-- A work-partition kernel given by its per-thread accumulation: block reduction, then the
stores of thread 0. -/
def partition_kernel (dev : Device R) (NB : Nat) (ksum : Nat → Nat → Nat → Nat → Nat → R)
    (workspace out : Loc) (hipGridDim_x hipBlockDim_x hipBlockIdx_x hipBlockIdx_y : Nat)
    (m : Loc → R) : Loc → R :=
  store_block_sum
    (rocblas_dot_block_reduce dev NB (ksum hipGridDim_x hipBlockDim_x hipBlockIdx_x hipBlockIdx_y) 0)
    workspace out hipGridDim_x hipBlockIdx_x hipBlockIdx_y m

/-- Output memory in which the block sums of a phase-1 launch with `g` blocks per entry lie at
their workspace slots (and nothing else is of interest). -/
def block_sums_mem (dev : Device R) (NB : Nat) (ksum : Nat → Nat → Nat → Nat → Nat → R)
    (g : Nat) : Loc → R
  | Loc.workspace t => rocblas_dot_block_reduce dev NB (ksum g NB (t % g) (t / g)) 0
  | Loc.results _ => 0

/-- The value a two-phase run with `g` blocks per entry delivers for batch entry `b`: the block
sum itself for `g = 1`, otherwise what thread 0 of the reduction block of entry `b` obtains from
the `g` block sums. -/
def two_phase_value (dev : Device R) (NB WIN : Nat)
    (ksum : Nat → Nat → Nat → Nat → Nat → R) (g b : Nat) : R :=
  if g = 1 then rocblas_dot_block_reduce dev NB (ksum 1 NB 0 b) 0
  else rocblas_dot_block_reduce dev NB
    (rocblas_dot_kernel_reduce_sum WIN g workspace_ptr (block_sums_mem dev NB ksum g) 1 NB b) 0

/-- Where `output` may point: to `results`, or into the workspace behind all block-sum slots. -/
def output_ok (g B : Nat) (out : Loc) : Prop :=
  out = results_ptr ∨ ∃ off, g * B ≤ off ∧ out = workspace_ptr.add off

/-- The pointer `output` of the template (lines 377-381). -/
def template_output (handle : rocblas_handle) (batch_count : Int) (blocks : Nat) : Loc :=
  if handle.pointer_mode ≠ rocblas_pointer_mode.device
  then workspace_ptr.add (batch_count.toNat * blocks) else results_ptr

/-! ## Reference value -/

/-- The value the spec asks for batch entry `b`: the sequential sum over `0 <= i < n` of
`y_b[i] * (CONJ ? conj(x_b[i]) : x_b[i])`, where `x_b[i]` and `y_b[i]` are the elements at
`shift + i * inc` of batch entry `b` (no narrowing of any index). -/
def dot_reference (dev : Device R) (CONJ : Bool) (conj : R → R) (batched : Bool) (n : Int)
    (x offsetx incx stridex y offsety incy stridey : Int) (b : Nat) : R :=
  let shiftx := if incx < 0 then offsetx - incx * (n - 1) else offsetx
  let shifty := if incy < 0 then offsety - incy * (n - 1) else offsety
  ∑ i ∈ Finset.range n.toNat,
    dot_term dev CONJ conj (load_ptr_batch dev batched x b shiftx stridex)
      (load_ptr_batch dev batched y b shifty stridey) ((i : Int) * incx) ((i : Int) * incy)

/-- The sum the selected kernel accumulates for batch entry `b`, in closed form: the products
`i * incx`, `i * incy` of the strided kernels are narrowed to 32 bits, and the dual-vector kernels
locate entry `b` of `y` with the narrowed `stridey`. -/
def dot_code_value (dev : Device R) (CONJ : Bool) (conj : R → R) (sizeofT : Nat) (batched : Bool)
    (n : Int) (x offsetx incx stridex y offsety incy stridey : Int) (b : Nat) : R :=
  let shiftx := if incx < 0 then offsetx - incx * (n - 1) else offsetx
  let shifty := if incy < 0 then offsety - incy * (n - 1) else offsety
  let xb := load_ptr_batch dev batched x b shiftx stridex
  let yb := load_ptr_batch dev batched y b shifty (wrap32 stridey)
  if x ≠ y ∨ incx ≠ incy ∨ offsetx ≠ offsety ∨ stridex ≠ stridey then
    if incx = 1 ∧ incy = 1 ∧ sizeofT ≥ 8 then
      ∑ i ∈ Finset.range n.toNat, dot_term dev CONJ conj xb yb (i : Int) (i : Int)
    else
      ∑ i ∈ Finset.range n.toNat,
        dot_term dev CONJ conj xb yb (wrap32 ((i : Int) * incx)) (wrap32 ((i : Int) * incy))
  else
    ∑ i ∈ Finset.range n.toNat,
      dot_term dev CONJ conj xb xb (wrap32 ((i : Int) * incx)) (wrap32 ((i : Int) * incx))

/-! ## Kernel choice, shifts, index traces and write sets -/

/-- Whether an event is the launch of one of the three work-partition (phase-1) kernels. -/
def Event.is_phase1_launch : Event → Bool
  | Event.launch Kernel.dot_reduce _ _ _ _ _ => false
  | Event.launch _ _ _ _ _ _ => true
  | _ => false

/-- Lines 370-371 of the template: `shiftx = incx < 0 ? offsetx - ptrdiff_t(incx) * (n - 1) :
offsetx` (and the same for `y`), the start handed to the kernels. -/
def template_shift (n offset inc : Int) : Int :=
  if inc < 0 then offset - inc * (n - 1) else offset

/-- The shared array `psums` of `rocblas_dot_block_reduce<NB>` after the second barrier: slot
`s` holds what lane 0 of wavefront `s` obtained from `wavefront_reduce<warpSize>`; the slots of
wavefronts that do not exist keep the zero of the first store (below `warpSize`). -/
def rocblas_dot_block_reduce_psums (dev : Device R) (NB : Nat) (val : Nat → R) : Nat → R :=
  let G := dev.warpSize
  let psums1 : Nat → R := fun s => if s < G ∧ s < NB then 0 else dev.shared s
  let val1 := wavefront_reduce G G val
  fun s => if s * G < NB then val1 (s * G) else psums1 s

/-- The offsets the loop of `wavefront_reduce` passes to `__shfl_down`, in order: the loop of
`wavefront_reduce_loop` with the exchange replaced by recording `offset`. -/
def wavefront_reduce_loop_offsets : Nat → Nat → List Nat
  | 0, _ => []
  | k + 1, offset => offset :: wavefront_reduce_loop_offsets k (offset >>> 1)

/-- The offsets of the exchange rounds of `wavefront_reduce<N>`, one entry per round. -/
def wavefront_reduce_offsets (N : Nat) : List Nat :=
  let WFBITS := rocblas_log2ui (N : Int)
  wavefront_reduce_loop_offsets WFBITS (1 <<< (WFBITS - 1))

/-- The stores one thread of a work-partition kernel issues, from the guards of the source:
`if(hipThreadIdx_x == 0)` the block-sum slot, and `if(hipGridDim_x == 1)` the output slot. -/
def partition_kernel_writes (workspace out : Loc)
    (hipGridDim_x hipBlockIdx_x hipBlockIdx_y hipThreadIdx_x : Nat) : List Loc :=
  if hipThreadIdx_x = 0 then
    workspace.add (hipBlockIdx_x + hipBlockIdx_y * hipGridDim_x)
      :: (if hipGridDim_x = 1 then [out.add hipBlockIdx_y] else [])
  else []

/-- The stores one thread of `rocblas_dot_kernel_reduce` issues:
`if(hipThreadIdx_x == 0) out[hipBlockIdx_y] = T(sum);`. -/
def rocblas_dot_kernel_reduce_writes (out : Loc) (hipBlockIdx_y hipThreadIdx_x : Nat) :
    List Loc :=
  if hipThreadIdx_x = 0 then [out.add hipBlockIdx_y] else []

/-- A device with 64-lane wavefronts whose input memory holds the value `a` at address `a`. -/
def sample_device : Device Int :=
  { warpSize := 64
    shared := fun _ => 0
    mem := fun a => a
    ptrs := fun _ _ => 0
    hipMemset_status := rocblas_status.success
    hipMemcpyAsync_status := rocblas_status.success }

/-- Output memory filled with sevens, nothing issued yet. -/
def sample_state : State Int :=
  { mem := fun _ => 7
    log := [] }

/-- A handle in host pointer mode, not a size query. -/
def host_handle : rocblas_handle :=
  { pointer_mode := rocblas_pointer_mode.host
    is_device_memory_size_query := false }

/-- A handle in device pointer mode, not a size query. -/
def device_handle : rocblas_handle :=
  { pointer_mode := rocblas_pointer_mode.device
    is_device_memory_size_query := false }

/-- A handle in device pointer mode during a workspace size query. -/
def query_handle : rocblas_handle :=
  { pointer_mode := rocblas_pointer_mode.device
    is_device_memory_size_query := true }

/-! ## Test expectation -/

/-- The argument check of `testing_nrm2_batched` (lines 60-72): for arguments with
`N <= 0 || incx <= 0 || batch_count <= 0` the status the test expects from the call; `none` when
the test goes on to compare values. -/
def testing_nrm2_batched_expected (N incx batch_count : Int) : Option rocblas_status :=
  if N ≤ 0 ∨ incx ≤ 0 ∨ batch_count ≤ 0 then
    some (if N > 0 ∧ incx > 0 ∧ batch_count < 0 then rocblas_status.invalid_size
      else rocblas_status.success)
  else none

end Code

/-! ## Loops and stores -/

section Basics

variable {R : Type}

theorem write_same (m : Loc → R) (p : Loc) (v : R) : write m p v p = v := by
  simp [write]

theorem write_other (m : Loc → R) (p q : Loc) (v : R) (h : q ≠ p) : write m p v q = m q := by
  simp [write, h]

theorem Loc.add_inj (p : Loc) (a b : Nat) (h : p.add a = p.add b) : a = b := by
  cases p <;> simp [Loc.add] at h <;> omega

theorem workspace_ptr_add (k : Nat) : workspace_ptr.add k = Loc.workspace k := by
  simp [workspace_ptr, Loc.add]

theorem results_ptr_add (k : Nat) : results_ptr.add k = Loc.results k := by
  simp [results_ptr, Loc.add]

theorem for_range_congr {α : Type} (f g : Nat → α → α) (n : Nat) (a : α)
    (h : ∀ k, k < n → ∀ b, f k b = g k b) : for_range f n a = for_range g n a := by
  induction n with
  | zero => rfl
  | succ n ih =>
    simp only [for_range]
    rw [ih (fun k hk => h k (Nat.lt_succ_of_lt hk)), h n (Nat.lt_succ_self n)]

theorem for_range_add {α : Type} (f : Nat → α → α) (n k : Nat) (a : α) :
    for_range f (n + k) a = for_range (fun j => f (n + j)) k (for_range f n a) := by
  induction k with
  | zero => rfl
  | succ k ih =>
    rw [← Nat.add_assoc]
    simp only [for_range]
    rw [ih]

/-- A grid traversed row by row is the traversal of the linear block index. -/
theorem for_range_nested {α : Type} (f : Nat → Nat → α → α) (g B : Nat) (a : α) :
    for_range (fun b m => for_range (fun c m => f c b m) g m) B a
      = for_range (fun t m => f (t % g) (t / g) m) (g * B) a := by
  induction B with
  | zero => rfl
  | succ B ih =>
    simp only [for_range]
    rw [ih, Nat.mul_succ, for_range_add]
    apply for_range_congr
    intro k hk b
    have hg : 0 < g := Nat.lt_of_le_of_lt (Nat.zero_le k) hk
    have h1 : (g * B + k) % g = k := by
      rw [Nat.mul_add_mod]
      exact Nat.mod_eq_of_lt hk
    have h2 : (g * B + k) / g = B := by
      rw [Nat.mul_add_div hg, Nat.div_eq_of_lt hk, Nat.add_zero]
    rw [h1, h2]

/-- Sequential stores to pairwise distinct cells whose values only read cells (`S`) that are not
stored to: every cell ends with the value computed from the initial memory. -/
theorem for_range_store (c : Prop) [Decidable c] (p p2 : Nat → Loc)
    (v : Nat → (Loc → R) → R) (S : Loc → Prop) (N : Nat) (m0 : Loc → R)
    (hp : ∀ t t2, t < N → t2 < N → p t = p t2 → t = t2)
    (hp2 : c → ∀ t t2, t < N → t2 < N → p2 t = p2 t2 → t = t2)
    (hpp2 : c → ∀ t t2, t < N → t2 < N → p t ≠ p2 t2)
    (hv : ∀ t m m2, t < N → (∀ q, S q → m q = m2 q) → v t m = v t m2)
    (hS : ∀ t, t < N → ¬ S (p t)) (hS2 : c → ∀ t, t < N → ¬ S (p2 t)) :
    (∀ t, t < N →
      for_range (fun t m => if c then write (write m (p t) (v t m)) (p2 t) (v t m)
        else write m (p t) (v t m)) N m0 (p t) = v t m0) ∧
    (c → ∀ t, t < N →
      for_range (fun t m => if c then write (write m (p t) (v t m)) (p2 t) (v t m)
        else write m (p t) (v t m)) N m0 (p2 t) = v t m0) ∧
    (∀ q, (∀ t, t < N → q ≠ p t) → (c → ∀ t, t < N → q ≠ p2 t) →
      for_range (fun t m => if c then write (write m (p t) (v t m)) (p2 t) (v t m)
        else write m (p t) (v t m)) N m0 q = m0 q) := by
  induction N with
  | zero =>
    refine ⟨fun t ht => absurd ht (Nat.not_lt_zero t), fun _ t ht => absurd ht (Nat.not_lt_zero t),
      fun q _ _ => rfl⟩
  | succ N ih =>
    have hlt : ∀ t, t < N → t < N + 1 := fun t ht => Nat.lt_succ_of_lt ht
    obtain ⟨ih1, ih2, ih3⟩ := ih
      (fun t t2 ht ht2 => hp t t2 (hlt t ht) (hlt t2 ht2))
      (fun hc t t2 ht ht2 => hp2 hc t t2 (hlt t ht) (hlt t2 ht2))
      (fun hc t t2 ht ht2 => hpp2 hc t t2 (hlt t ht) (hlt t2 ht2))
      (fun t m m2 ht => hv t m m2 (hlt t ht))
      (fun t ht => hS t (hlt t ht))
      (fun hc t ht => hS2 hc t (hlt t ht))
    have hagree : ∀ q, S q →
        for_range (fun t m => if c then write (write m (p t) (v t m)) (p2 t) (v t m)
          else write m (p t) (v t m)) N m0 q = m0 q := by
      intro q hq
      apply ih3 q
      · intro t ht heq
        exact hS t (hlt t ht) (heq ▸ hq)
      · intro hc t ht heq
        exact hS2 hc t (hlt t ht) (heq ▸ hq)
    have hvN := hv N _ m0 (Nat.lt_succ_self N) hagree
    simp only [for_range]
    rw [hvN]
    refine ⟨?_, ?_, ?_⟩
    · intro t ht
      by_cases hc : c
      · rw [if_pos hc]
        rw [write_other _ _ _ _ (hpp2 hc t N ht (Nat.lt_succ_self N))]
        by_cases htN : t = N
        · subst htN
          exact write_same _ _ _
        · have hne : p t ≠ p N := fun h => htN (hp t N ht (Nat.lt_succ_self N) h)
          rw [write_other _ _ _ _ hne]
          exact ih1 t (by omega)
      · rw [if_neg hc]
        by_cases htN : t = N
        · subst htN
          exact write_same _ _ _
        · have hne : p t ≠ p N := fun h => htN (hp t N ht (Nat.lt_succ_self N) h)
          rw [write_other _ _ _ _ hne]
          exact ih1 t (by omega)
    · intro hc t ht
      rw [if_pos hc]
      by_cases htN : t = N
      · subst htN
        exact write_same _ _ _
      · have hne : p2 t ≠ p2 N := fun h => htN (hp2 hc t N ht (Nat.lt_succ_self N) h)
        rw [write_other _ _ _ _ hne]
        have hne2 : p2 t ≠ p N := fun h => hpp2 hc N t (Nat.lt_succ_self N) ht h.symm
        rw [write_other _ _ _ _ hne2]
        exact ih2 hc t (by omega)
    · intro q hq1 hq2
      by_cases hc : c
      · rw [if_pos hc]
        rw [write_other _ _ _ _ (hq2 hc N (Nat.lt_succ_self N)),
          write_other _ _ _ _ (hq1 N (Nat.lt_succ_self N))]
        exact ih3 q (fun t ht => hq1 t (hlt t ht)) (fun hc t ht => hq2 hc t (hlt t ht))
      · rw [if_neg hc]
        rw [write_other _ _ _ _ (hq1 N (Nat.lt_succ_self N))]
        exact ih3 q (fun t ht => hq1 t (hlt t ht)) (fun hc t ht => hq2 hc t (hlt t ht))

end Basics

/-! ## Sums computed by the loops -/

section Sums

variable {R : Type} [CommRing R]

theorem for_range_sum (h : Nat → R) (W : Nat) (a : R) :
    for_range (fun j s => s + h j) W a = a + ∑ j ∈ Finset.range W, h j := by
  induction W with
  | zero => simp [for_range]
  | succ W ih => simp only [for_range, ih, Finset.sum_range_succ, add_assoc]

theorem strided_loop_sum (f : Nat → R) (n inc k i : Nat) (a : R) :
    strided_loop (fun i s => s + f i) n inc k i a
      = a + ∑ j ∈ Finset.range k, (if i + j * inc < n then f (i + j * inc) else 0) := by
  induction k generalizing i a with
  | zero => simp [strided_loop]
  | succ k ih =>
    simp only [strided_loop]
    by_cases h : i < n
    · rw [if_pos h, ih, Finset.sum_range_succ']
      simp only [Nat.zero_mul, Nat.add_zero, if_pos h]
      have hc : ∀ j, i + inc + j * inc = i + (j + 1) * inc := fun j => by ring
      simp only [hc]
      rw [add_assoc, add_comm (f i)]
    · rw [if_neg h]
      symm
      rw [add_right_eq_self]
      apply Finset.sum_eq_zero
      intro j _
      have hj : ¬ (i + j * inc < n) := by
        have := Nat.le_add_right i (j * inc)
        omega
      rw [if_neg hj]

theorem sum_range_mul (h : Nat → R) (a b : Nat) :
    ∑ i ∈ Finset.range (a * b), h i
      = ∑ j ∈ Finset.range a, ∑ k ∈ Finset.range b, h (j * b + k) := by
  induction a with
  | zero => simp
  | succ a ih => rw [Nat.succ_mul, Finset.sum_range_add, ih, Finset.sum_range_succ]

/-- A grid-stride traversal by `T` threads with at most `M` steps each visits every index below
`min n (M * T)` once. -/
theorem sum_grid_stride (f : Nat → R) (T M n : Nat) :
    ∑ t ∈ Finset.range T, ∑ j ∈ Finset.range M, (if t + j * T < n then f (t + j * T) else 0)
      = ∑ i ∈ Finset.range (M * T), (if i < n then f i else 0) := by
  rw [Finset.sum_comm, sum_range_mul]
  apply Finset.sum_congr rfl
  intro j _
  apply Finset.sum_congr rfl
  intro t _
  rw [Nat.add_comm t (j * T)]

theorem sum_range_ite_lt (f : Nat → R) (N n : Nat) (h : n ≤ N) :
    ∑ i ∈ Finset.range N, (if i < n then f i else 0) = ∑ i ∈ Finset.range n, f i := by
  obtain ⟨d, rfl⟩ := Nat.exists_eq_add_of_le h
  rw [Finset.sum_range_add]
  have h1 : ∑ i ∈ Finset.range n, (if i < n then f i else 0) = ∑ i ∈ Finset.range n, f i := by
    apply Finset.sum_congr rfl
    intro i hi
    rw [if_pos (Finset.mem_range.mp hi)]
  have h2 : ∑ i ∈ Finset.range d, (if n + i < n then f (n + i) else 0) = 0 := by
    apply Finset.sum_eq_zero
    intro i _
    rw [if_neg (by omega)]
  rw [h1, h2, add_zero]

theorem strided_grid_sum (f : Nat → R) (WIN NB g n : Nat) :
    ∑ bx ∈ Finset.range g, ∑ tid ∈ Finset.range NB, ∑ j ∈ Finset.range WIN,
        (if bx * NB + tid + j * (NB * g) < n then f (bx * NB + tid + j * (NB * g)) else 0)
      = ∑ i ∈ Finset.range (WIN * (g * NB)), (if i < n then f i else 0) := by
  rw [← sum_grid_stride, sum_range_mul]
  simp only [Nat.mul_comm NB g]

/-- Closed form of one thread of a `WIN`-unrolled grid-stride loop over `T` threads, in units of
chunks of `WIN` consecutive indices. -/
theorem chunked_thread_sum (h : Nat → R) (WIN T n t : Nat) (hW : 0 < WIN) :
    strided_loop (fun i s => for_range (fun j s => s + h (i + j)) WIN s)
        (n - n % WIN) (T * WIN) (n - n % WIN) (t * WIN) 0
      = ∑ k ∈ Finset.range (n - n % WIN),
          (if t + k * T < n / WIN then ∑ j ∈ Finset.range WIN, h ((t + k * T) * WIN + j)
            else 0) := by
  have hend : n - n % WIN = n / WIN * WIN := by
    have := Nat.div_add_mod n WIN
    rw [Nat.mul_comm] at this
    omega
  have hbody : (fun i s => for_range (fun j s => s + h (i + j)) WIN s)
      = (fun i s => s + ∑ j ∈ Finset.range WIN, h (i + j)) := by
    funext i s
    exact for_range_sum _ _ _
  rw [hbody, strided_loop_sum, zero_add]
  apply Finset.sum_congr rfl
  intro k _
  have hidx : t * WIN + k * (T * WIN) = (t + k * T) * WIN := by ring
  rw [hidx, hend]
  by_cases hc : t + k * T < n / WIN
  · rw [if_pos hc, if_pos (Nat.mul_lt_mul_of_pos_right hc hW)]
  · rw [if_neg hc, if_neg]
    intro hlt
    exact hc (Nat.lt_of_mul_lt_mul_right hlt)

/-- The threads of a `WIN`-unrolled grid-stride loop together cover the whole chunks once. -/
theorem chunked_loop_sum (h : Nat → R) (WIN T n : Nat) (hW : 0 < WIN) (hT : 0 < T) :
    ∑ t ∈ Finset.range T,
        strided_loop (fun i s => for_range (fun j s => s + h (i + j)) WIN s)
          (n - n % WIN) (T * WIN) (n - n % WIN) (t * WIN) 0
      = ∑ i ∈ Finset.range (n - n % WIN), h i := by
  have hend : n - n % WIN = n / WIN * WIN := by
    have := Nat.div_add_mod n WIN
    rw [Nat.mul_comm] at this
    omega
  simp only [chunked_thread_sum h WIN T n _ hW]
  rw [sum_grid_stride (fun c => ∑ j ∈ Finset.range WIN, h (c * WIN + j)) T (n - n % WIN) (n / WIN),
    sum_range_ite_lt, hend, sum_range_mul]
  rw [hend]
  calc n / WIN ≤ n / WIN * WIN := Nat.le_mul_of_pos_right _ hW
    _ ≤ n / WIN * WIN * T := Nat.le_mul_of_pos_right _ hT

/-- The remainder indices, taken from the tail by the first threads. -/
theorem tail_sum (h : Nat → R) (NB n r : Nat) (hr : r ≤ NB) (hn : r ≤ n) :
    ∑ tid ∈ Finset.range NB, (if tid < r then h (n - 1 - tid) else 0)
      = ∑ j ∈ Finset.range r, h (n - r + j) := by
  rw [sum_range_ite_lt (fun tid => h (n - 1 - tid)) NB r hr,
    ← Finset.sum_range_reflect (fun j => h (n - r + j)) r]
  apply Finset.sum_congr rfl
  intro j hj
  have := Finset.mem_range.mp hj
  congr 1
  omega

/-- Whole chunks plus remainder make up the range. -/
theorem chunks_add_tail (h : Nat → R) (WIN n : Nat) :
    ∑ i ∈ Finset.range (n - n % WIN), h i
        + ∑ j ∈ Finset.range (n % WIN), h (n - n % WIN + j)
      = ∑ i ∈ Finset.range n, h i := by
  have hle : n % WIN ≤ n := Nat.mod_le n WIN
  rw [← Finset.sum_range_add]
  congr 2
  omega

end Sums

/-! ## Effect of the launches on output memory -/

section Stores

variable {R : Type}

theorem output_ok_ne (g B : Nat) (out : Loc) (h : output_ok g B out) (t b : Nat) (ht : t < g * B) :
    Loc.workspace t ≠ out.add b := by
  rcases h with h | ⟨off, hoff, h⟩
  · rw [h, results_ptr_add]
    exact fun h => Loc.noConfusion h
  · rw [h, workspace_ptr_add]
    simp only [Loc.add, ne_eq, Loc.workspace.injEq]
    omega

/-- Output memory after a phase-1 launch of a grid of `g` by `B` blocks. -/
theorem phase1_mem (V : Nat → Nat → R) (g B : Nat) (out : Loc) (m0 : Loc → R)
    (hout : output_ok g B out) :
    (∀ t, t < g * B →
      for_range (fun b m => for_range (fun c m =>
        store_block_sum (V c b) workspace_ptr out g c b m) g m) B m0 (Loc.workspace t)
        = V (t % g) (t / g)) ∧
    (g = 1 → ∀ b, b < B →
      for_range (fun b m => for_range (fun c m =>
        store_block_sum (V c b) workspace_ptr out g c b m) g m) B m0 (out.add b) = V 0 b) ∧
    (∀ q, (∀ t, t < g * B → q ≠ Loc.workspace t) → (g = 1 → ∀ b, b < B → q ≠ out.add b) →
      for_range (fun b m => for_range (fun c m =>
        store_block_sum (V c b) workspace_ptr out g c b m) g m) B m0 q = m0 q) := by
  rw [for_range_nested (fun c b m => store_block_sum (V c b) workspace_ptr out g c b m)]
  have hstep : (fun t m => store_block_sum (V (t % g) (t / g)) workspace_ptr out g (t % g) (t / g) m)
      = (fun t (m : Loc → R) =>
          if g = 1 then
            write (write m (Loc.workspace t) ((fun t (_ : Loc → R) => V (t % g) (t / g)) t m))
              (out.add (t / g)) ((fun t (_ : Loc → R) => V (t % g) (t / g)) t m)
          else write m (Loc.workspace t) ((fun t (_ : Loc → R) => V (t % g) (t / g)) t m)) := by
    funext t m
    have hidx : t % g + t / g * g = t := by
      rw [Nat.mul_comm]
      exact Nat.mod_add_div t g
    simp only [store_block_sum, workspace_ptr_add, hidx]
  rw [hstep]
  obtain ⟨h1, h2, h3⟩ := for_range_store (g = 1) (fun t => Loc.workspace t)
    (fun t => out.add (t / g)) (fun t (_ : Loc → R) => V (t % g) (t / g)) (fun _ => False)
    (g * B) m0
    (fun t t2 _ _ h => by simpa using h)
    (fun hg t t2 _ _ h => by
      have := Loc.add_inj _ _ _ h
      rw [hg, Nat.div_one, Nat.div_one] at this
      exact this)
    (fun _ t t2 ht _ => output_ok_ne g B out hout t _ ht)
    (fun _ _ _ _ _ => rfl)
    (fun _ _ h => h)
    (fun _ _ _ h => h)
  refine ⟨h1, ?_, ?_⟩
  · intro hg b hb
    have hb2 : b < g * B := by rw [hg, Nat.one_mul]; exact hb
    have := h2 hg b hb2
    rw [hg, Nat.div_one, Nat.mod_one] at this
    rw [hg]
    exact this
  · intro q hq1 hq2
    apply h3 q hq1
    intro hg t ht
    have ht2 : t < B := by rw [hg, Nat.one_mul] at ht; exact ht
    rw [hg, Nat.div_one]
    exact hq2 hg t ht2

theorem hipLaunchKernelGGL_mem (k : Kernel)
    (kernel : Loc → Loc → Nat → Nat → Nat → Nat → (Loc → R) → Loc → R)
    (g B bd : Nat) (ws out : Loc) (st : State R) :
    (hipLaunchKernelGGL k kernel g B bd ws out st).mem
      = for_range (fun b m => for_range (fun c m => kernel ws out g bd c b m) g m) B st.mem :=
  rfl

theorem hipLaunchKernelGGL_log (k : Kernel)
    (kernel : Loc → Loc → Nat → Nat → Nat → Nat → (Loc → R) → Loc → R)
    (g B bd : Nat) (ws out : Loc) (st : State R) :
    (hipLaunchKernelGGL k kernel g B bd ws out st).log
      = st.log ++ [Event.launch k g B bd ws out] :=
  rfl

/-- Cells filled by a sequence of stores of known values. -/
theorem for_range_write (p : Loc) (f : Nat → R) (N : Nat) (m0 : Loc → R) :
    (∀ t, t < N → for_range (fun i m => write m (p.add i) (f i)) N m0 (p.add t) = f t) ∧
    (∀ q, (∀ t, t < N → q ≠ p.add t) →
      for_range (fun i m => write m (p.add i) (f i)) N m0 q = m0 q) := by
  have hstep : (fun i (m : Loc → R) => write m (p.add i) (f i))
      = (fun t (m : Loc → R) =>
          if False then write (write m (p.add t) ((fun i (_ : Loc → R) => f i) t m)) (p.add t)
            ((fun i (_ : Loc → R) => f i) t m)
          else write m (p.add t) ((fun i (_ : Loc → R) => f i) t m)) := by
    funext i m
    simp only [if_false]
  rw [hstep]
  obtain ⟨h1, _, h3⟩ := for_range_store False (fun t => p.add t) (fun t => p.add t)
    (fun i (_ : Loc → R) => f i) (fun _ => False) N m0
    (fun t t2 _ _ h => Loc.add_inj _ _ _ h)
    (fun hf => False.elim hf) (fun hf => False.elim hf)
    (fun _ _ _ _ _ => rfl) (fun _ _ h => h) (fun hf => False.elim hf)
  exact ⟨h1, fun q hq => h3 q hq (fun hf => False.elim hf)⟩

theorem hipMemcpyAsync_mem (dst src : Loc) (count : Nat) (st : State R) :
    (∀ t, t < count → (hipMemcpyAsync dst src count st).mem (dst.add t) = st.mem (src.add t)) ∧
    (∀ q, (∀ t, t < count → q ≠ dst.add t) →
      (hipMemcpyAsync dst src count st).mem q = st.mem q) :=
  for_range_write dst (fun i => st.mem (src.add i)) count st.mem

/-- Address of logical element `i` after negating the increment: it is the address of logical
element `n - 1 - i` before. -/
theorem element_address_neg (dev : Device R) (batched : Bool) (p off inc stride n : Int)
    (b i : Nat) (hinc : inc ≠ 0) (hi : (i : Int) < n) :
    load_ptr_batch dev batched p b (if -inc < 0 then off - -inc * (n - 1) else off) stride
        + (i : Int) * -inc
      = load_ptr_batch dev batched p b (if inc < 0 then off - inc * (n - 1) else off) stride
        + ((n.toNat - 1 - i : Nat) : Int) * inc := by
  have hcast : ((n.toNat - 1 - i : Nat) : Int) = n - 1 - i := by omega
  rw [hcast]
  unfold load_ptr_batch
  by_cases h : inc < 0
  · have h2 : ¬ (-inc < 0) := by omega
    rw [if_pos h, if_neg h2]
    split_ifs <;> ring
  · have h2 : -inc < 0 := by omega
    rw [if_neg h, if_pos h2]
    split_ifs <;> ring

end Stores

section Launches

variable {R : Type} [CommRing R]

theorem hipMemset_zero_mem (dst : Loc) (count : Nat) (st : State R) :
    (∀ t, t < count → (hipMemset_zero dst count st).mem (dst.add t) = 0) ∧
    (∀ q, (∀ t, t < count → q ≠ dst.add t) → (hipMemset_zero dst count st).mem q = st.mem q) :=
  for_range_write dst (fun _ => 0) count st.mem

theorem host_store_loop_mem (p : Loc) (N : Nat) (st : State R) :
    (for_range (fun i s => host_store_zero p i s) N st).mem
      = for_range (fun i m => write m (p.add i) (0 : R)) N st.mem := by
  induction N with
  | zero => rfl
  | succ N ih =>
    show write (for_range (fun i s => host_store_zero p i s) N st).mem (p.add N) 0
      = write (for_range (fun i m => write m (p.add i) (0 : R)) N st.mem) (p.add N) 0
    rw [ih]

theorem host_store_loop_log (p : Loc) (N : Nat) (st : State R) :
    (for_range (fun i s => host_store_zero p i s) N st).log
      = st.log ++ (List.range N).map (fun i => Event.host_store (p.add i)) := by
  induction N with
  | zero => simp [for_range]
  | succ N ih =>
    show (for_range (fun i s => host_store_zero p i s) N st).log ++ [Event.host_store (p.add N)]
      = st.log ++ (List.range (N + 1)).map (fun i => Event.host_store (p.add i))
    rw [ih, List.range_succ, List.map_append, List.append_assoc]
    rfl

theorem rocblas_dot_kernel_reduce_sum_eq (WIN n_sums : Nat) (inp : Loc) (m : Loc → R)
    (NB b tid : Nat) (hW : 0 < WIN) :
    rocblas_dot_kernel_reduce_sum WIN n_sums inp m 1 NB b tid
      = ∑ k ∈ Finset.range (n_sums - n_sums % WIN),
          (if tid + k * NB < n_sums / WIN then
            ∑ j ∈ Finset.range WIN, m ((inp.add (b * n_sums)).add ((tid + k * NB) * WIN + j))
           else 0)
        + (if tid < n_sums % WIN then m ((inp.add (b * n_sums)).add (n_sums - 1 - tid))
           else 0) := by
  simp only [rocblas_dot_kernel_reduce_sum, Nat.mul_one]
  rw [chunked_thread_sum (fun i => m ((inp.add (b * n_sums)).add i)) WIN NB n_sums tid hW]
  split_ifs <;> simp

/-- A reduction thread reads nothing but the `n_sums` block sums of its batch entry. -/
theorem rocblas_dot_kernel_reduce_sum_congr (WIN n_sums : Nat) (inp : Loc) (m m2 : Loc → R)
    (NB b tid : Nat) (hW : 0 < WIN)
    (h : ∀ i, i < n_sums → m ((inp.add (b * n_sums)).add i) = m2 ((inp.add (b * n_sums)).add i)) :
    rocblas_dot_kernel_reduce_sum WIN n_sums inp m 1 NB b tid
      = rocblas_dot_kernel_reduce_sum WIN n_sums inp m2 1 NB b tid := by
  rw [rocblas_dot_kernel_reduce_sum_eq _ _ _ _ _ _ _ hW,
    rocblas_dot_kernel_reduce_sum_eq _ _ _ _ _ _ _ hW]
  have hdm := Nat.div_add_mod n_sums WIN
  have hmodle : n_sums % WIN ≤ n_sums := Nat.mod_le _ _
  congr 1
  · apply Finset.sum_congr rfl
    intro k _
    by_cases hc : tid + k * NB < n_sums / WIN
    · rw [if_pos hc, if_pos hc]
      apply Finset.sum_congr rfl
      intro j hj
      have hj2 := Finset.mem_range.mp hj
      apply h
      have h1 : (tid + k * NB + 1) * WIN ≤ n_sums / WIN * WIN := Nat.mul_le_mul_right _ hc
      rw [Nat.add_mul, Nat.one_mul] at h1
      rw [Nat.mul_comm] at hdm
      omega
    · rw [if_neg hc, if_neg hc]
  · by_cases hc : tid < n_sums % WIN
    · rw [if_pos hc, if_pos hc]
      apply h
      omega
    · rw [if_neg hc, if_neg hc]

/-- Output memory after a phase-2 launch (grid of 1 by `B` blocks) reading `g` block sums per
entry. -/
theorem phase2_mem (dev : Device R) (NB WIN : Nat) (hW : 0 < WIN) (g B : Nat) (out : Loc)
    (m1 : Loc → R) (hout : output_ok g B out) :
    (∀ b, b < B →
      for_range (fun b m => for_range (fun c m =>
        rocblas_dot_kernel_reduce dev NB WIN g workspace_ptr out 1 NB c b m) 1 m) B m1 (out.add b)
        = rocblas_dot_block_reduce dev NB
            (rocblas_dot_kernel_reduce_sum WIN g workspace_ptr m1 1 NB b) 0) ∧
    (∀ q, (∀ b, b < B → q ≠ out.add b) →
      for_range (fun b m => for_range (fun c m =>
        rocblas_dot_kernel_reduce dev NB WIN g workspace_ptr out 1 NB c b m) 1 m) B m1 q
        = m1 q) := by
  have hstep : (fun b (m : Loc → R) => for_range (fun c m =>
        rocblas_dot_kernel_reduce dev NB WIN g workspace_ptr out 1 NB c b m) 1 m)
      = (fun t (m : Loc → R) =>
          if False then
            write (write m (out.add t) ((fun b m => rocblas_dot_block_reduce dev NB
              (rocblas_dot_kernel_reduce_sum WIN g workspace_ptr m 1 NB b) 0) t m))
              (out.add t) ((fun b m => rocblas_dot_block_reduce dev NB
              (rocblas_dot_kernel_reduce_sum WIN g workspace_ptr m 1 NB b) 0) t m)
          else write m (out.add t) ((fun b m => rocblas_dot_block_reduce dev NB
              (rocblas_dot_kernel_reduce_sum WIN g workspace_ptr m 1 NB b) 0) t m)) := by
    funext b m
    simp only [for_range, rocblas_dot_kernel_reduce, if_false]
  rw [hstep]
  obtain ⟨h1, _, h3⟩ := for_range_store False (fun t => out.add t) (fun t => out.add t)
    (fun b m => rocblas_dot_block_reduce dev NB
      (rocblas_dot_kernel_reduce_sum WIN g workspace_ptr m 1 NB b) 0)
    (fun q => ∃ t, t < g * B ∧ q = Loc.workspace t) B m1
    (fun t t2 _ _ h => Loc.add_inj _ _ _ h)
    (fun hf => False.elim hf)
    (fun hf => False.elim hf)
    (fun b m m2 hb hag => by
      have hfun : rocblas_dot_kernel_reduce_sum WIN g workspace_ptr m 1 NB b
          = rocblas_dot_kernel_reduce_sum WIN g workspace_ptr m2 1 NB b := by
        funext tid
        apply rocblas_dot_kernel_reduce_sum_congr _ _ _ _ _ _ _ _ hW
        intro i hi
        apply hag
        refine ⟨b * g + i, ?_, ?_⟩
        · have h1 : (b + 1) * g ≤ B * g := Nat.mul_le_mul_right _ hb
          rw [Nat.add_mul, Nat.one_mul] at h1
          rw [Nat.mul_comm g B]
          omega
        · simp [workspace_ptr, Loc.add]
      simp only [hfun])
    (fun t _ hS => by
      obtain ⟨i, hi, heq⟩ := hS
      exact output_ok_ne g B out hout i t hi heq.symm)
    (fun hf => False.elim hf)
  exact ⟨h1, fun q hq => h3 q hq (fun hf => False.elim hf)⟩

/-- Operations issued by a two-phase run. -/
theorem launch_two_phase_log (dev : Device R) (NB WIN : Nat) (k : Kernel)
    (kernel : Loc → Loc → Nat → Nat → Nat → Nat → (Loc → R) → Loc → R)
    (g B : Nat) (out : Loc) (st : State R) :
    (launch_two_phase dev NB WIN k kernel g B out st).log
      = st.log ++ (Event.launch k g B NB workspace_ptr out
          :: (if g > 1 then [Event.launch Kernel.dot_reduce 1 B NB workspace_ptr out] else [])) := by
  unfold launch_two_phase
  by_cases hg : g > 1
  · simp [hg, hipLaunchKernelGGL_log]
  · simp [hg, hipLaunchKernelGGL_log]

/-- Cells a two-phase run does not store to keep their contents. -/
theorem launch_two_phase_frame (dev : Device R) (NB WIN : Nat) (hW : 0 < WIN) (k : Kernel)
    (ksum : Nat → Nat → Nat → Nat → Nat → R) (g B : Nat) (out : Loc) (st : State R)
    (hout : output_ok g B out) (q : Loc)
    (hq1 : ∀ t, t < g * B → q ≠ Loc.workspace t) (hq2 : ∀ b, b < B → q ≠ out.add b) :
    (launch_two_phase dev NB WIN k (partition_kernel dev NB ksum) g B out st).mem q
      = st.mem q := by
  unfold launch_two_phase
  have h1 := (phase1_mem (fun c b => rocblas_dot_block_reduce dev NB (ksum g NB c b) 0)
    g B out st.mem hout).2.2 q hq1 (fun _ => hq2)
  by_cases hg : g > 1
  · simp only [hg, if_true]
    rw [hipLaunchKernelGGL_mem, (phase2_mem dev NB WIN hW g B out _ hout).2 q hq2]
    exact h1
  · simp only [hg, if_false]
    exact h1

/-- The value a two-phase run leaves in the output slot of batch entry `b`. -/
theorem launch_two_phase_mem (dev : Device R) (NB WIN : Nat) (hW : 0 < WIN) (k : Kernel)
    (ksum : Nat → Nat → Nat → Nat → Nat → R) (g B : Nat) (out : Loc) (st : State R)
    (hg : 0 < g) (hout : output_ok g B out) (b : Nat) (hb : b < B) :
    (launch_two_phase dev NB WIN k (partition_kernel dev NB ksum) g B out st).mem (out.add b)
      = two_phase_value dev NB WIN ksum g b := by
  unfold launch_two_phase two_phase_value
  obtain ⟨h1, h2, _⟩ := phase1_mem (fun c b => rocblas_dot_block_reduce dev NB (ksum g NB c b) 0)
    g B out st.mem hout
  by_cases hg1 : g = 1
  · have hng : ¬ g > 1 := by omega
    simp only [hng, if_false, hg1, if_true]
    have := h2 hg1 b hb
    rw [hg1] at this
    exact this
  · have hgt : g > 1 := by omega
    simp only [hgt, if_true, hg1, if_false]
    rw [hipLaunchKernelGGL_mem, (phase2_mem dev NB WIN hW g B out _ hout).1 b hb]
    congr 1
    funext tid
    apply rocblas_dot_kernel_reduce_sum_congr _ _ _ _ _ _ _ _ hW
    intro i hi
    have hlt : b * g + i < g * B := by
      have h3 : (b + 1) * g ≤ B * g := Nat.mul_le_mul_right _ hb
      rw [Nat.add_mul, Nat.one_mul] at h3
      rw [Nat.mul_comm g B]
      omega
    have hloc : (workspace_ptr.add (b * g)).add i = Loc.workspace (b * g + i) := by
      simp [workspace_ptr, Loc.add]
    rw [hloc]
    exact h1 _ hlt

end Launches

/-! ## The template -/

section Template

variable {R : Type} [CommRing R]

theorem rocblas_dot_WIN_T_pos (sizeofT : Nat) : 0 < rocblas_dot_WIN_T sizeofT := by
  unfold rocblas_dot_WIN_T
  simp only []
  split_ifs <;> decide

theorem rocblas_reduction_kernel_block_count_pos (n : Int) (NB : Nat) :
    0 < rocblas_reduction_kernel_block_count n NB := by
  unfold rocblas_reduction_kernel_block_count
  exact Nat.succ_pos _

theorem template_output_ok (handle : rocblas_handle) (batch_count : Int) (blocks : Nat) :
    output_ok blocks batch_count.toNat (template_output handle batch_count blocks) := by
  unfold template_output output_ok
  by_cases h : handle.pointer_mode ≠ rocblas_pointer_mode.device
  · rw [if_pos h]
    exact Or.inr ⟨batch_count.toNat * blocks, by rw [Nat.mul_comm], rfl⟩
  · rw [if_neg h]
    exact Or.inl rfl

/-- Lines 369-460 are one two-phase run of the selected kernel on the grid of `blocks` by
`batch_count` blocks with the selected output pointer. -/
theorem dot_template_kernels_eq (dev : Device R) (NB : Nat) (CONJ : Bool) (conj : R → R)
    (sizeofT : Nat) (batched : Bool) (handle : rocblas_handle) (n : Int)
    (x offsetx incx stridex y offsety incy stridey : Int) (batch_count : Int) (st : State R) :
    dot_template_kernels dev NB CONJ conj sizeofT batched handle n x offsetx incx stridex
        y offsety incy stridey batch_count st
      = launch_two_phase dev NB (rocblas_dot_WIN_T sizeofT)
          (template_kernel_id sizeofT x offsetx incx stridex y offsety incy stridey)
          (partition_kernel dev NB (template_thread_sum dev CONJ conj sizeofT batched n
            x offsetx incx stridex y offsety incy stridey))
          (rocblas_reduction_kernel_block_count n (NB * rocblas_dot_WIN_T sizeofT))
          batch_count.toNat
          (template_output handle batch_count
            (rocblas_reduction_kernel_block_count n (NB * rocblas_dot_WIN_T sizeofT))) st := by
  obtain ⟨pm, q⟩ := handle
  unfold dot_template_kernels launch_two_phase template_kernel_id template_thread_sum
    template_output
  by_cases h1 : x ≠ y ∨ incx ≠ incy ∨ offsetx ≠ offsety ∨ stridex ≠ stridey
  · by_cases h2 : incx = 1 ∧ incy = 1 ∧ sizeofT ≥ 8
    · simp only [if_pos h1, if_pos h2]
      cases pm <;>
        simp only [ne_eq, reduceCtorEq, not_false_eq_true, not_true_eq_false, if_true,
          if_false] <;> rfl
    · simp only [if_pos h1, if_neg h2]
      cases pm <;>
        simp only [ne_eq, reduceCtorEq, not_false_eq_true, not_true_eq_false, if_true,
          if_false] <;> rfl
  · simp only [if_neg h1]
    cases pm <;>
      simp only [ne_eq, reduceCtorEq, not_false_eq_true, not_true_eq_false, if_true,
        if_false] <;> rfl

/-- Operations issued by lines 369-460. -/
theorem dot_template_kernels_log (dev : Device R) (NB : Nat) (CONJ : Bool) (conj : R → R)
    (sizeofT : Nat) (batched : Bool) (handle : rocblas_handle) (n : Int)
    (x offsetx incx stridex y offsety incy stridey : Int) (batch_count : Int) (st : State R) :
    (dot_template_kernels dev NB CONJ conj sizeofT batched handle n x offsetx incx stridex
        y offsety incy stridey batch_count st).log
      = st.log ++
        (Event.launch (template_kernel_id sizeofT x offsetx incx stridex y offsety incy stridey)
            (rocblas_reduction_kernel_block_count n (NB * rocblas_dot_WIN_T sizeofT))
            batch_count.toNat NB workspace_ptr
            (template_output handle batch_count
              (rocblas_reduction_kernel_block_count n (NB * rocblas_dot_WIN_T sizeofT)))
          :: (if rocblas_reduction_kernel_block_count n (NB * rocblas_dot_WIN_T sizeofT) > 1
              then [Event.launch Kernel.dot_reduce 1 batch_count.toNat NB workspace_ptr
                (template_output handle batch_count
                  (rocblas_reduction_kernel_block_count n (NB * rocblas_dot_WIN_T sizeofT)))]
              else [])) := by
  rw [dot_template_kernels_eq, launch_two_phase_log]

/-- Outside the quick return, device pointer mode: the kernels, then success. -/
theorem dot_template_device (dev : Device R) (NB : Nat) (CONJ : Bool) (conj : R → R)
    (sizeofT : Nat) (batched : Bool) (handle : rocblas_handle) (n : Int)
    (x offsetx incx stridex y offsety incy stridey : Int) (batch_count : Int) (st : State R)
    (hm : handle.pointer_mode = rocblas_pointer_mode.device) (hn : 0 < n)
    (hB : batch_count ≠ 0) :
    rocblas_internal_dot_template dev NB CONJ conj sizeofT batched handle n x offsetx incx
        stridex y offsety incy stridey batch_count st
      = (rocblas_status.success,
          dot_template_kernels dev NB CONJ conj sizeofT batched handle n x offsetx incx stridex
            y offsety incy stridey batch_count st) := by
  have hdeg : ¬ (n ≤ 0 ∨ batch_count = 0) := by omega
  unfold rocblas_internal_dot_template
  rw [if_neg hdeg]
  simp only [hm, if_true]

/-- Outside the quick return, host pointer mode with a copy that succeeds: the kernels, the copy
of `batch_count` elements from the staging region, then success. -/
theorem dot_template_host (dev : Device R) (NB : Nat) (CONJ : Bool) (conj : R → R)
    (sizeofT : Nat) (batched : Bool) (handle : rocblas_handle) (n : Int)
    (x offsetx incx stridex y offsety incy stridey : Int) (batch_count : Int) (st : State R)
    (hm : handle.pointer_mode = rocblas_pointer_mode.host) (hn : 0 < n)
    (hB : batch_count ≠ 0) (hcopy : dev.hipMemcpyAsync_status = rocblas_status.success) :
    rocblas_internal_dot_template dev NB CONJ conj sizeofT batched handle n x offsetx incx
        stridex y offsety incy stridey batch_count st
      = (rocblas_status.success,
          hipMemcpyAsync results_ptr
            (workspace_ptr.add (batch_count.toNat
              * rocblas_reduction_kernel_block_count n (NB * rocblas_dot_WIN_T sizeofT)))
            batch_count.toNat
            (dot_template_kernels dev NB CONJ conj sizeofT batched handle n x offsetx incx stridex
              y offsety incy stridey batch_count st)) := by
  have hdeg : ¬ (n ≤ 0 ∨ batch_count = 0) := by omega
  unfold rocblas_internal_dot_template
  rw [if_neg hdeg]
  simp only [hm, hcopy, reduceCtorEq, if_false, ne_eq, not_true_eq_false]

/-- The value the template delivers to `results[b]`, in either pointer mode. -/
theorem dot_template_value (dev : Device R) (NB : Nat) (CONJ : Bool) (conj : R → R)
    (sizeofT : Nat) (batched : Bool) (handle : rocblas_handle) (n : Int)
    (x offsetx incx stridex y offsety incy stridey : Int) (batch_count : Int) (st : State R)
    (hn : 0 < n) (hB : 0 < batch_count)
    (hcopy : handle.pointer_mode = rocblas_pointer_mode.host →
      dev.hipMemcpyAsync_status = rocblas_status.success)
    (b : Nat) (hb : (b : Int) < batch_count) :
    (rocblas_internal_dot_template dev NB CONJ conj sizeofT batched handle n x offsetx incx
        stridex y offsety incy stridey batch_count st).2.mem (Loc.results b)
      = two_phase_value dev NB (rocblas_dot_WIN_T sizeofT)
          (template_thread_sum dev CONJ conj sizeofT batched n x offsetx incx stridex
            y offsety incy stridey)
          (rocblas_reduction_kernel_block_count n (NB * rocblas_dot_WIN_T sizeofT)) b := by
  have hB0 : batch_count ≠ 0 := by omega
  have hb2 : b < batch_count.toNat := by omega
  have hval := fun out hout => launch_two_phase_mem dev NB (rocblas_dot_WIN_T sizeofT)
    (rocblas_dot_WIN_T_pos sizeofT)
    (template_kernel_id sizeofT x offsetx incx stridex y offsety incy stridey)
    (template_thread_sum dev CONJ conj sizeofT batched n x offsetx incx stridex
      y offsety incy stridey)
    (rocblas_reduction_kernel_block_count n (NB * rocblas_dot_WIN_T sizeofT))
    batch_count.toNat out st (rocblas_reduction_kernel_block_count_pos _ _) hout b hb2
  have hok := template_output_ok handle batch_count
    (rocblas_reduction_kernel_block_count n (NB * rocblas_dot_WIN_T sizeofT))
  cases hm : handle.pointer_mode with
  | device =>
    rw [dot_template_device dev NB CONJ conj sizeofT batched handle n x offsetx incx stridex
      y offsety incy stridey batch_count st hm hn hB0, dot_template_kernels_eq]
    have hout : template_output handle batch_count
        (rocblas_reduction_kernel_block_count n (NB * rocblas_dot_WIN_T sizeofT))
        = results_ptr := by
      simp [template_output, hm]
    rw [hout] at hok ⊢
    have := hval results_ptr hok
    rw [results_ptr_add] at this
    exact this
  | host =>
    rw [dot_template_host dev NB CONJ conj sizeofT batched handle n x offsetx incx stridex
      y offsety incy stridey batch_count st hm hn hB0 (hcopy hm), dot_template_kernels_eq]
    have hout : template_output handle batch_count
        (rocblas_reduction_kernel_block_count n (NB * rocblas_dot_WIN_T sizeofT))
        = workspace_ptr.add (batch_count.toNat
            * rocblas_reduction_kernel_block_count n (NB * rocblas_dot_WIN_T sizeofT)) := by
      simp [template_output, hm]
    rw [hout] at hok ⊢
    have hc := (hipMemcpyAsync_mem results_ptr
      (workspace_ptr.add (batch_count.toNat
        * rocblas_reduction_kernel_block_count n (NB * rocblas_dot_WIN_T sizeofT)))
      batch_count.toNat
      (launch_two_phase dev NB (rocblas_dot_WIN_T sizeofT)
        (template_kernel_id sizeofT x offsetx incx stridex y offsety incy stridey)
        (partition_kernel dev NB (template_thread_sum dev CONJ conj sizeofT batched n
          x offsetx incx stridex y offsety incy stridey))
        (rocblas_reduction_kernel_block_count n (NB * rocblas_dot_WIN_T sizeofT))
        batch_count.toNat
        (workspace_ptr.add (batch_count.toNat
          * rocblas_reduction_kernel_block_count n (NB * rocblas_dot_WIN_T sizeofT))) st)).1 b hb2
    rw [results_ptr_add] at hc
    rw [hc]
    exact hval _ hok

end Template

/-! ## Quick return -/

section QuickReturn

variable {R : Type} [CommRing R]

/-- C2: a degenerate call (`n <= 0` or `batch_count == 0`) that is not a workspace-size query,
with `batch_count >= 0` and a memory fill that does not fail, returns success and launches no
kernel: it issues one fill of `batch_count` elements in device pointer mode and one scalar store
per entry in host pointer mode, and afterwards `results[i] == 0` for every `i < batch_count`. -/
theorem degenerate_call_zero_fills (dev : Device R) (NB : Nat) (CONJ : Bool) (conj : R → R)
    (sizeofT : Nat) (batched : Bool) (handle : rocblas_handle) (n : Int)
    (x offsetx incx stridex y offsety incy stridey : Int) (batch_count : Int) (st : State R)
    (hdeg : n ≤ 0 ∨ batch_count = 0) (hq : handle.is_device_memory_size_query = false)
    (hB : 0 ≤ batch_count)
    (hfill : handle.pointer_mode = rocblas_pointer_mode.device →
      dev.hipMemset_status = rocblas_status.success) :
    (rocblas_internal_dot_template dev NB CONJ conj sizeofT batched handle n x offsetx incx
        stridex y offsety incy stridey batch_count st).1 = rocblas_status.success ∧
    (rocblas_internal_dot_template dev NB CONJ conj sizeofT batched handle n x offsetx incx
        stridex y offsety incy stridey batch_count st).2.log
      = st.log ++
          (if handle.pointer_mode = rocblas_pointer_mode.device ∧ batch_count > 0
           then [Event.hipMemset results_ptr batch_count.toNat]
           else (List.range batch_count.toNat).map (fun i => Event.host_store (Loc.results i))) ∧
    (∀ e, e ∈ (rocblas_internal_dot_template dev NB CONJ conj sizeofT batched handle n x offsetx
        incx stridex y offsety incy stridey batch_count st).2.log →
      e.is_launch = true → e ∈ st.log) ∧
    (∀ i : Nat, (i : Int) < batch_count →
      (rocblas_internal_dot_template dev NB CONJ conj sizeofT batched handle n x offsetx incx
        stridex y offsety incy stridey batch_count st).2.mem (Loc.results i) = 0) := by
  unfold rocblas_internal_dot_template
  rw [if_pos hdeg]
  simp only [hq, Bool.false_eq_true, if_false]
  by_cases hdev : handle.pointer_mode = rocblas_pointer_mode.device ∧ batch_count > 0
  · rw [if_pos hdev, if_pos hdev]
    have hok : ¬ (dev.hipMemset_status ≠ rocblas_status.success) := by
      rw [hfill hdev.1]
      exact fun h => h rfl
    rw [if_neg hok]
    refine ⟨rfl, rfl, ?_, ?_⟩
    · intro e he hl
      have he2 : e ∈ st.log ++ [Event.hipMemset results_ptr batch_count.toNat] := he
      rw [List.mem_append, List.mem_singleton] at he2
      rcases he2 with h | h
      · exact h
      · rw [h] at hl
        exact absurd hl (by simp [Event.is_launch])
    · intro i hi
      have := (hipMemset_zero_mem results_ptr batch_count.toNat st).1 i (by omega)
      rw [results_ptr_add] at this
      exact this
  · rw [if_neg hdev, if_neg hdev]
    refine ⟨rfl, ?_, ?_, ?_⟩
    · show (for_range (fun i s => host_store_zero results_ptr i s) batch_count.toNat st).log = _
      rw [host_store_loop_log]
      simp only [results_ptr_add]
    · intro e he hl
      have he2 : e ∈ (for_range (fun i s => host_store_zero results_ptr i s)
          batch_count.toNat st).log := he
      rw [host_store_loop_log, List.mem_append, List.mem_map] at he2
      rcases he2 with h | ⟨i, _, h⟩
      · exact h
      · rw [← h] at hl
        exact absurd hl (by simp [Event.is_launch])
    · intro i hi
      show (for_range (fun i s => host_store_zero results_ptr i s) batch_count.toNat st).mem
        (Loc.results i) = 0
      rw [host_store_loop_mem]
      have := (for_range_write results_ptr (fun _ => (0 : R)) batch_count.toNat st.mem).1 i
        (by omega)
      rw [results_ptr_add] at this
      exact this

/-- C4: a degenerate call made during a workspace-size query returns the size-unchanged status
and leaves the whole state as it was: no kernel launch and no other operation is issued, no
element of `results` or of the workspace is written, in either pointer mode. -/
theorem size_query_quick_return (dev : Device R) (NB : Nat) (CONJ : Bool) (conj : R → R)
    (sizeofT : Nat) (batched : Bool) (handle : rocblas_handle) (n : Int)
    (x offsetx incx stridex y offsety incy stridey : Int) (batch_count : Int) (st : State R)
    (hdeg : n ≤ 0 ∨ batch_count = 0) (hq : handle.is_device_memory_size_query = true) :
    rocblas_internal_dot_template dev NB CONJ conj sizeofT batched handle n x offsetx incx
        stridex y offsety incy stridey batch_count st
      = (rocblas_status.size_unchanged, st) := by
  unfold rocblas_internal_dot_template
  rw [if_pos hdeg]
  simp only [hq, if_true]

/-- C3, amended: a call with `n <= 0` (whatever `batch_count`, `-1` included) takes the quick
return: it reports success (size-unchanged during a size query), never invalid size, provided the
memory fill does not fail; the test expects the invalid-size status exactly for `N > 0`,
`incx > 0` and `batch_count < 0`. -/
theorem nonpositive_n_is_not_invalid_size (dev : Device R) (NB : Nat) (CONJ : Bool)
    (conj : R → R) (sizeofT : Nat) (batched : Bool) (handle : rocblas_handle) (n : Int)
    (x offsetx incx stridex y offsety incy stridey : Int) (batch_count : Int) (st : State R)
    (hn : n ≤ 0) (hfill : dev.hipMemset_status = rocblas_status.success) :
    (rocblas_internal_dot_template dev NB CONJ conj sizeofT batched handle n x offsetx incx
        stridex y offsety incy stridey batch_count st).1
      = (if handle.is_device_memory_size_query then rocblas_status.size_unchanged
         else rocblas_status.success) ∧
    (rocblas_internal_dot_template dev NB CONJ conj sizeofT batched handle n x offsetx incx
        stridex y offsety incy stridey batch_count st).1 ≠ rocblas_status.invalid_size ∧
    (∀ N inc bc : Int, testing_nrm2_batched_expected N inc bc = some rocblas_status.invalid_size
      ↔ (0 < N ∧ 0 < inc ∧ bc < 0)) := by
  have hstatus : (rocblas_internal_dot_template dev NB CONJ conj sizeofT batched handle n x
      offsetx incx stridex y offsety incy stridey batch_count st).1
      = (if handle.is_device_memory_size_query then rocblas_status.size_unchanged
         else rocblas_status.success) := by
    unfold rocblas_internal_dot_template
    rw [if_pos (Or.inl hn)]
    by_cases hq : handle.is_device_memory_size_query = true
    · simp only [hq, if_true]
    · simp only [hq, if_false, hfill, ne_eq, not_true_eq_false]
      split_ifs <;> rfl
  refine ⟨hstatus, ?_, ?_⟩
  · rw [hstatus]
    split_ifs <;> exact fun h => rocblas_status.noConfusion h
  · intro N inc bc
    unfold testing_nrm2_batched_expected
    constructor
    · intro h
      by_cases hg : N ≤ 0 ∨ inc ≤ 0 ∨ bc ≤ 0
      · rw [if_pos hg] at h
        by_cases hc : N > 0 ∧ inc > 0 ∧ bc < 0
        · exact ⟨hc.1, hc.2.1, hc.2.2⟩
        · rw [if_neg hc] at h
          exact absurd (Option.some.inj h) (fun h => rocblas_status.noConfusion h)
      · rw [if_neg hg] at h
        exact Option.noConfusion h
    · intro ⟨h1, h2, h3⟩
      have hg : N ≤ 0 ∨ inc ≤ 0 ∨ bc ≤ 0 := Or.inr (Or.inr (by omega))
      have hc : N > 0 ∧ inc > 0 ∧ bc < 0 := ⟨h1, h2, h3⟩
      rw [if_pos hg, if_pos hc]

/-- Witness of C2: `n = 0`, three batch entries, device pointer mode. -/
theorem degenerate_call_zero_fills_witness :
    ((0 : Int) ≤ 0 ∨ (3 : Int) = 0) ∧ device_handle.is_device_memory_size_query = false ∧
    (0 : Int) ≤ 3 ∧
    (rocblas_internal_dot_template sample_device 512 false id 4 false device_handle 0
      0 0 1 0 0 0 1 0 3 sample_state).1 = rocblas_status.success ∧
    (∀ i : Nat, (i : Int) < 3 →
      (rocblas_internal_dot_template sample_device 512 false id 4 false device_handle 0
        0 0 1 0 0 0 1 0 3 sample_state).2.mem (Loc.results i) = 0) :=
  ⟨Or.inl (le_refl 0), rfl, by decide,
    (degenerate_call_zero_fills sample_device 512 false id 4 false device_handle 0
      0 0 1 0 0 0 1 0 3 sample_state (Or.inl (le_refl 0)) rfl (by decide) (fun _ => rfl)).1,
    (degenerate_call_zero_fills sample_device 512 false id 4 false device_handle 0
      0 0 1 0 0 0 1 0 3 sample_state (Or.inl (le_refl 0)) rfl (by decide) (fun _ => rfl)).2.2.2⟩

/-- Witness of C4: `n = 0` during a size query. -/
theorem size_query_quick_return_witness :
    ((0 : Int) ≤ 0 ∨ (3 : Int) = 0) ∧ query_handle.is_device_memory_size_query = true ∧
    rocblas_internal_dot_template sample_device 512 false id 4 false query_handle 0
        0 0 1 0 0 0 1 0 3 sample_state
      = (rocblas_status.size_unchanged, sample_state) :=
  ⟨Or.inl (le_refl 0), rfl,
    size_query_quick_return sample_device 512 false id 4 false query_handle 0
      0 0 1 0 0 0 1 0 3 sample_state (Or.inl (le_refl 0)) rfl⟩

/-- C3 as stated fails: with `n = 0` and one batch entry the call does not report invalid size;
it returns success with a zero output, which is also what the test expects for `N = 0`. -/
theorem n_zero_returns_success :
    (rocblas_internal_dot_template sample_device 512 false id 4 false device_handle 0
      0 0 1 0 0 0 1 0 1 sample_state).1 ≠ rocblas_status.invalid_size ∧
    (rocblas_internal_dot_template sample_device 512 false id 4 false device_handle 0
      0 0 1 0 0 0 1 0 1 sample_state).1 = rocblas_status.success ∧
    (rocblas_internal_dot_template sample_device 512 false id 4 false device_handle 0
      0 0 1 0 0 0 1 0 1 sample_state).2.mem (Loc.results 0) = 0 ∧
    testing_nrm2_batched_expected 0 1 1 = some rocblas_status.success := by
  decide

/-- Witness of the amended C3: `n = 0` with `batch_count = -1`. -/
theorem nonpositive_n_is_not_invalid_size_witness :
    (0 : Int) ≤ 0 ∧ sample_device.hipMemset_status = rocblas_status.success ∧
    (rocblas_internal_dot_template sample_device 512 false id 4 false device_handle 0
      0 0 1 0 0 0 1 0 (-1) sample_state).1 ≠ rocblas_status.invalid_size :=
  ⟨le_refl 0, rfl,
    (nonpositive_n_is_not_invalid_size sample_device 512 false id 4 false device_handle 0
      0 0 1 0 0 0 1 0 (-1) sample_state (le_refl 0) rfl).2.1⟩

end QuickReturn

/-! ## Result placement -/

section Placement

variable {R : Type} [CommRing R]

/-- C5: for `n > 0` and `batch_count > 0` (and a copy that does not fail), the value delivered to
`results[b]` in host pointer mode, staged in the workspace and then copied, is the value written
to `results[b]` in device pointer mode, for every `b < batch_count`, whatever the two initial
output memories hold; both calls return the same status and launch the same kernels with the
same grid and block size. -/
theorem pointer_mode_parity (dev : Device R) (NB : Nat) (CONJ : Bool) (conj : R → R)
    (sizeofT : Nat) (batched : Bool) (hh hd : rocblas_handle) (n : Int)
    (x offsetx incx stridex y offsety incy stridey : Int) (batch_count : Int)
    (sth std : State R)
    (hhost : hh.pointer_mode = rocblas_pointer_mode.host)
    (hdev : hd.pointer_mode = rocblas_pointer_mode.device)
    (hn : 0 < n) (hB : 0 < batch_count)
    (hcopy : dev.hipMemcpyAsync_status = rocblas_status.success)
    (b : Nat) (hb : (b : Int) < batch_count) :
    (rocblas_internal_dot_template dev NB CONJ conj sizeofT batched hh n x offsetx incx
        stridex y offsety incy stridey batch_count sth).2.mem (Loc.results b)
      = (rocblas_internal_dot_template dev NB CONJ conj sizeofT batched hd n x offsetx incx
          stridex y offsety incy stridey batch_count std).2.mem (Loc.results b) ∧
    (rocblas_internal_dot_template dev NB CONJ conj sizeofT batched hh n x offsetx incx
        stridex y offsety incy stridey batch_count sth).1
      = (rocblas_internal_dot_template dev NB CONJ conj sizeofT batched hd n x offsetx incx
          stridex y offsety incy stridey batch_count std).1 ∧
    (((rocblas_internal_dot_template dev NB CONJ conj sizeofT batched hh n x offsetx incx
        stridex y offsety incy stridey batch_count sth).2.log.drop sth.log.length).filterMap
          Event.launch_shape
      = ((rocblas_internal_dot_template dev NB CONJ conj sizeofT batched hd n x offsetx incx
          stridex y offsety incy stridey batch_count std).2.log.drop std.log.length).filterMap
            Event.launch_shape) := by
  refine ⟨?_, ?_, ?_⟩
  · rw [dot_template_value dev NB CONJ conj sizeofT batched hh n x offsetx incx stridex
        y offsety incy stridey batch_count sth hn hB (fun _ => hcopy) b hb,
      dot_template_value dev NB CONJ conj sizeofT batched hd n x offsetx incx stridex
        y offsety incy stridey batch_count std hn hB (fun _ => hcopy) b hb]
  · rw [dot_template_host dev NB CONJ conj sizeofT batched hh n x offsetx incx stridex
        y offsety incy stridey batch_count sth hhost hn (by omega) hcopy,
      dot_template_device dev NB CONJ conj sizeofT batched hd n x offsetx incx stridex
        y offsety incy stridey batch_count std hdev hn (by omega)]
  · rw [dot_template_host dev NB CONJ conj sizeofT batched hh n x offsetx incx stridex
        y offsety incy stridey batch_count sth hhost hn (by omega) hcopy,
      dot_template_device dev NB CONJ conj sizeofT batched hd n x offsetx incx stridex
        y offsety incy stridey batch_count std hdev hn (by omega)]
    simp only [hipMemcpyAsync, dot_template_kernels_log, List.append_assoc, List.drop_left]
    by_cases hg : rocblas_reduction_kernel_block_count n (NB * rocblas_dot_WIN_T sizeofT) > 1
    · simp [hg, Event.launch_shape]
    · simp [hg, Event.launch_shape]

/-- Witness of C5: `n = 5000` (five blocks per entry, two phases), two batch entries, second
entry. -/
theorem pointer_mode_parity_witness :
    host_handle.pointer_mode = rocblas_pointer_mode.host ∧
    device_handle.pointer_mode = rocblas_pointer_mode.device ∧
    (0 : Int) < 5000 ∧ (0 : Int) < 2 ∧
    sample_device.hipMemcpyAsync_status = rocblas_status.success ∧ ((1 : Nat) : Int) < 2 ∧
    (rocblas_internal_dot_template sample_device 512 false id 8 false host_handle 5000
        0 0 1 6000 10000 0 1 6000 2 sample_state).2.mem (Loc.results 1)
      = (rocblas_internal_dot_template sample_device 512 false id 8 false device_handle 5000
          0 0 1 6000 10000 0 1 6000 2 sample_state).2.mem (Loc.results 1) :=
  ⟨rfl, rfl, by decide, by decide, rfl, by decide,
    (pointer_mode_parity sample_device 512 false id 8 false host_handle device_handle 5000
      0 0 1 6000 10000 0 1 6000 2 sample_state sample_state rfl rfl (by decide) (by decide) rfl
      1 (by decide)).1⟩

/-- C10: for `n > 0` and `batch_count = B > 0`.  In host pointer mode (with a copy that does not
fail) the call issues the phase-1 launch, the phase-2 launch when `blocks > 1`, both with
`out = workspace + B * blocks`, then one copy of `B` elements from there to `results`; the kernels
leave every element of `results` as it was, and after the copy `results[b]` is the staging slot
`b` for `b < B` while the other elements of `results` are unchanged.  In device pointer mode the
launches receive `results` itself and nothing else is issued. -/
theorem host_mode_stages_in_workspace (dev : Device R) (NB : Nat) (CONJ : Bool) (conj : R → R)
    (sizeofT : Nat) (batched : Bool) (handle : rocblas_handle) (n : Int)
    (x offsetx incx stridex y offsety incy stridey : Int) (batch_count : Int) (st : State R)
    (hn : 0 < n) (hB : 0 < batch_count)
    (hcopy : dev.hipMemcpyAsync_status = rocblas_status.success) :
    (handle.pointer_mode = rocblas_pointer_mode.host →
      (dot_template_kernels dev NB CONJ conj sizeofT batched handle n x offsetx incx stridex
          y offsety incy stridey batch_count st).log
        = st.log ++
          (Event.launch (template_kernel_id sizeofT x offsetx incx stridex y offsety incy stridey)
              (rocblas_reduction_kernel_block_count n (NB * rocblas_dot_WIN_T sizeofT))
              batch_count.toNat NB workspace_ptr
              (Loc.workspace (batch_count.toNat
                * rocblas_reduction_kernel_block_count n (NB * rocblas_dot_WIN_T sizeofT)))
            :: (if rocblas_reduction_kernel_block_count n (NB * rocblas_dot_WIN_T sizeofT) > 1
                then [Event.launch Kernel.dot_reduce 1 batch_count.toNat NB workspace_ptr
                  (Loc.workspace (batch_count.toNat
                    * rocblas_reduction_kernel_block_count n (NB * rocblas_dot_WIN_T sizeofT)))]
                else [])) ∧
      (∀ i, (dot_template_kernels dev NB CONJ conj sizeofT batched handle n x offsetx incx
          stridex y offsety incy stridey batch_count st).mem (Loc.results i)
        = st.mem (Loc.results i)) ∧
      (rocblas_internal_dot_template dev NB CONJ conj sizeofT batched handle n x offsetx incx
          stridex y offsety incy stridey batch_count st).2.log
        = (dot_template_kernels dev NB CONJ conj sizeofT batched handle n x offsetx incx stridex
            y offsety incy stridey batch_count st).log
          ++ [Event.hipMemcpyAsync results_ptr
              (Loc.workspace (batch_count.toNat
                * rocblas_reduction_kernel_block_count n (NB * rocblas_dot_WIN_T sizeofT)))
              batch_count.toNat] ∧
      (∀ b : Nat, (b : Int) < batch_count →
        (rocblas_internal_dot_template dev NB CONJ conj sizeofT batched handle n x offsetx incx
            stridex y offsety incy stridey batch_count st).2.mem (Loc.results b)
          = (rocblas_internal_dot_template dev NB CONJ conj sizeofT batched handle n x offsetx
              incx stridex y offsety incy stridey batch_count st).2.mem
              (Loc.workspace (batch_count.toNat
                * rocblas_reduction_kernel_block_count n (NB * rocblas_dot_WIN_T sizeofT) + b))) ∧
      (∀ i : Nat, batch_count ≤ (i : Int) →
        (rocblas_internal_dot_template dev NB CONJ conj sizeofT batched handle n x offsetx incx
            stridex y offsety incy stridey batch_count st).2.mem (Loc.results i)
          = st.mem (Loc.results i))) ∧
    (handle.pointer_mode = rocblas_pointer_mode.device →
      (rocblas_internal_dot_template dev NB CONJ conj sizeofT batched handle n x offsetx incx
          stridex y offsety incy stridey batch_count st).2.log
        = st.log ++
          (Event.launch (template_kernel_id sizeofT x offsetx incx stridex y offsety incy stridey)
              (rocblas_reduction_kernel_block_count n (NB * rocblas_dot_WIN_T sizeofT))
              batch_count.toNat NB workspace_ptr results_ptr
            :: (if rocblas_reduction_kernel_block_count n (NB * rocblas_dot_WIN_T sizeofT) > 1
                then [Event.launch Kernel.dot_reduce 1 batch_count.toNat NB workspace_ptr
                  results_ptr]
                else []))) := by
  have hB0 : batch_count ≠ 0 := by omega
  have hok := template_output_ok handle batch_count
    (rocblas_reduction_kernel_block_count n (NB * rocblas_dot_WIN_T sizeofT))
  constructor
  · intro hm
    have hout : template_output handle batch_count
        (rocblas_reduction_kernel_block_count n (NB * rocblas_dot_WIN_T sizeofT))
        = Loc.workspace (batch_count.toNat
            * rocblas_reduction_kernel_block_count n (NB * rocblas_dot_WIN_T sizeofT)) := by
      simp [template_output, hm, workspace_ptr_add]
    rw [hout] at hok
    have hkres : ∀ i, (dot_template_kernels dev NB CONJ conj sizeofT batched handle n x offsetx
        incx stridex y offsety incy stridey batch_count st).mem (Loc.results i)
        = st.mem (Loc.results i) := by
      intro i
      rw [dot_template_kernels_eq, hout]
      apply launch_two_phase_frame _ _ _ (rocblas_dot_WIN_T_pos sizeofT) _ _ _ _ _ _ hok
      · intro t _
        exact fun h => Loc.noConfusion h
      · intro b _
        simp only [Loc.add]
        exact fun h => Loc.noConfusion h
    have hfin := dot_template_host dev NB CONJ conj sizeofT batched handle n x offsetx incx
      stridex y offsety incy stridey batch_count st hm hn hB0 hcopy
    rw [workspace_ptr_add] at hfin
    refine ⟨?_, hkres, ?_, ?_, ?_⟩
    · rw [dot_template_kernels_eq, launch_two_phase_log, hout]
    · rw [hfin]
      rfl
    · intro b hb
      rw [hfin]
      have h1 := (hipMemcpyAsync_mem results_ptr (Loc.workspace (batch_count.toNat
          * rocblas_reduction_kernel_block_count n (NB * rocblas_dot_WIN_T sizeofT)))
        batch_count.toNat (dot_template_kernels dev NB CONJ conj sizeofT batched handle n x
          offsetx incx stridex y offsety incy stridey batch_count st)).1 b (by omega)
      have h2 := (hipMemcpyAsync_mem results_ptr (Loc.workspace (batch_count.toNat
          * rocblas_reduction_kernel_block_count n (NB * rocblas_dot_WIN_T sizeofT)))
        batch_count.toNat (dot_template_kernels dev NB CONJ conj sizeofT batched handle n x
          offsetx incx stridex y offsety incy stridey batch_count st)).2
        (Loc.workspace (batch_count.toNat
          * rocblas_reduction_kernel_block_count n (NB * rocblas_dot_WIN_T sizeofT) + b))
        (fun t _ => by
          rw [results_ptr_add]
          exact fun h => Loc.noConfusion h)
      rw [results_ptr_add] at h1
      simp only [Loc.add] at h1
      rw [h1, h2]
    · intro i hi
      rw [hfin]
      have h2 := (hipMemcpyAsync_mem results_ptr (Loc.workspace (batch_count.toNat
          * rocblas_reduction_kernel_block_count n (NB * rocblas_dot_WIN_T sizeofT)))
        batch_count.toNat (dot_template_kernels dev NB CONJ conj sizeofT batched handle n x
          offsetx incx stridex y offsety incy stridey batch_count st)).2 (Loc.results i)
        (fun t ht => by
          rw [results_ptr_add]
          simp only [ne_eq, Loc.results.injEq]
          omega)
      rw [h2]
      exact hkres i
  · intro hm
    have hout : template_output handle batch_count
        (rocblas_reduction_kernel_block_count n (NB * rocblas_dot_WIN_T sizeofT))
        = results_ptr := by
      simp [template_output, hm]
    rw [dot_template_device dev NB CONJ conj sizeofT batched handle n x offsetx incx stridex
      y offsety incy stridey batch_count st hm hn hB0, dot_template_kernels_eq,
      launch_two_phase_log, hout]

/-- Witness of C10: `n = 5000`, two batch entries. -/
theorem host_mode_stages_in_workspace_witness :
    (0 : Int) < 5000 ∧ (0 : Int) < 2 ∧
    sample_device.hipMemcpyAsync_status = rocblas_status.success ∧
    (∀ i, (dot_template_kernels sample_device 512 false id 8 false host_handle 5000
        0 0 1 6000 10000 0 1 6000 2 sample_state).mem (Loc.results i)
      = sample_state.mem (Loc.results i)) :=
  ⟨by decide, by decide, rfl,
    ((host_mode_stages_in_workspace sample_device 512 false id 8 false host_handle 5000
      0 0 1 6000 10000 0 1 6000 2 sample_state (by decide) (by decide) rfl).1 rfl).2.1⟩

end Placement

/-! ## Reducers -/

section Reducers

variable {R : Type} [CommRing R]

theorem rocblas_log2ui_loop_pow (k fuel v : Nat) (h : k ≤ fuel) :
    rocblas_log2ui_loop (fuel + 1) (2 ^ k) v = v + k := by
  induction k generalizing fuel v with
  | zero => simp [rocblas_log2ui_loop]
  | succ k ih =>
    obtain ⟨f, rfl⟩ : ∃ f, fuel = f + 1 := ⟨fuel - 1, by omega⟩
    have hs : (2 ^ (k + 1)) >>> 1 = 2 ^ k := by
      rw [Nat.shiftRight_eq_div_pow, Nat.pow_succ]
      simp
    have hne : (2 : Nat) ^ k ≠ 0 := by positivity
    rw [rocblas_log2ui_loop, hs, if_pos hne, ih f (v + 1) (by omega)]
    omega

theorem rocblas_log2ui_pow (k : Nat) (hk : k ≤ 31) :
    rocblas_log2ui (((2 ^ k : Nat)) : Int) = k := by
  have hlt : (2 : Nat) ^ k < 4294967296 := by
    have : (2 : Nat) ^ k ≤ 2 ^ 31 := Nat.pow_le_pow_right (by norm_num) hk
    omega
  have hmod : (((2 ^ k : Nat)) : Int) % 4294967296 = ((2 ^ k : Nat) : Int) := by
    apply Int.emod_eq_of_lt
    · exact Int.natCast_nonneg _
    · exact_mod_cast hlt
  unfold rocblas_log2ui
  rw [hmod, Int.toNat_natCast, rocblas_log2ui_loop_pow k 31 0 hk, Nat.zero_add]

theorem wavefront_reduce_loop_sum (G r : Nat) (val : Nat → R) (tid : Nat)
    (h : tid % G + 2 ^ r ≤ G) :
    wavefront_reduce_loop G r (2 ^ r / 2) val tid = ∑ m ∈ Finset.range (2 ^ r), val (tid + m) := by
  induction r generalizing val with
  | zero => simp [wavefront_reduce_loop]
  | succ r ih =>
    have h2 : (2 : Nat) ^ (r + 1) = 2 ^ r + 2 ^ r := by rw [Nat.pow_succ]; omega
    have hoff : (2 : Nat) ^ (r + 1) / 2 = 2 ^ r := by rw [Nat.pow_succ]; simp
    have hoff2 : ((2 : Nat) ^ r) >>> 1 = 2 ^ r / 2 := by
      simp [Nat.shiftRight_eq_div_pow]
    have hpos : 0 < (2 : Nat) ^ r := by positivity
    rw [h2] at h
    have hr : tid % G + 2 ^ r ≤ G := by omega
    rw [wavefront_reduce_loop, hoff, hoff2, ih _ hr, h2, Finset.sum_range_add,
      Finset.sum_add_distrib]
    congr 1
    apply Finset.sum_congr rfl
    intro m hm
    have hm2 := Finset.mem_range.mp hm
    have hmG : m < G := by omega
    have hmod : (tid + m) % G = tid % G + m := by
      rw [Nat.add_mod, Nat.mod_eq_of_lt hmG, Nat.mod_eq_of_lt (by omega)]
    unfold shfl_down
    rw [if_pos (by omega)]
    congr 1
    omega

/-- With `N = 2 ^ k` lanes to combine, a lane that has `N - 1` lanes above it in its wavefront
ends with the sum of the `N` values starting at its own. -/
theorem wavefront_reduce_pow (G k : Nat) (hk : k ≤ 31) (val : Nat → R) (tid : Nat)
    (h : tid % G + 2 ^ k ≤ G) :
    wavefront_reduce G (2 ^ k) val tid = ∑ m ∈ Finset.range (2 ^ k), val (tid + m) := by
  simp only [wavefront_reduce]
  rw [rocblas_log2ui_pow k hk]
  cases k with
  | zero => simp [wavefront_reduce_loop]
  | succ k =>
    have hoff : 1 <<< (k + 1 - 1) = 2 ^ (k + 1) / 2 := by
      rw [Nat.add_sub_cancel, Nat.one_shiftLeft, Nat.pow_succ]; simp
    rw [hoff]
    exact wavefront_reduce_loop_sum G (k + 1) val tid h

/-- Thread 0 of a block of `NB = warpSize * 2 ^ c` threads, with `warpSize = 2 ^ a` and `c ≤ a`,
obtains the sum of the values of all threads of the block. -/
theorem rocblas_dot_block_reduce_zero (dev : Device R) (NB a c : Nat)
    (hG : dev.warpSize = 2 ^ a) (ha : a ≤ 31) (hNB : NB = dev.warpSize * 2 ^ c) (hc : c ≤ a)
    (val : Nat → R) :
    rocblas_dot_block_reduce dev NB val 0 = ∑ t ∈ Finset.range NB, val t := by
  have hGpos : 0 < dev.warpSize := by rw [hG]; positivity
  have hcG : 2 ^ c ≤ dev.warpSize := by rw [hG]; exact Nat.pow_le_pow_right (by norm_num) hc
  have hdiv : NB / dev.warpSize = 2 ^ c := by rw [hNB]; exact Nat.mul_div_cancel_left _ hGpos
  unfold rocblas_dot_block_reduce
  simp only []
  rw [if_pos (Nat.zero_div _), hdiv, wavefront_reduce_pow _ c (by omega) _ 0 (by simpa using hcG)]
  rw [hNB, Nat.mul_comm, sum_range_mul]
  apply Finset.sum_congr rfl
  intro m hm
  have hm2 := Finset.mem_range.mp hm
  have hmG : m < dev.warpSize := by omega
  have hmNB : m * dev.warpSize < 2 ^ c * dev.warpSize := Nat.mul_lt_mul_of_pos_right hm2 hGpos
  rw [Nat.zero_add, if_pos hm2, Nat.mod_eq_of_lt hmG, if_pos hmNB]
  have hw := wavefront_reduce_pow dev.warpSize a ha val (m * dev.warpSize)
    (by rw [Nat.mul_mod_left, hG]; omega)
  rw [← hG] at hw
  exact hw

end Reducers

/-! ## What the kernels add up -/

section Totals

variable {R : Type} [CommRing R]

/-- The threads of one reduction block together read each of the `n_sums` block sums of their
batch entry once. -/
theorem rocblas_dot_kernel_reduce_total (WIN n_sums : Nat) (inp : Loc) (m : Loc → R)
    (NB b : Nat) (hW : 0 < WIN) (hNB : 0 < NB) (hr : n_sums % WIN ≤ NB) :
    ∑ tid ∈ Finset.range NB, rocblas_dot_kernel_reduce_sum WIN n_sums inp m 1 NB b tid
      = ∑ i ∈ Finset.range n_sums, m ((inp.add (b * n_sums)).add i) := by
  have hthread : ∀ tid, rocblas_dot_kernel_reduce_sum WIN n_sums inp m 1 NB b tid
      = strided_loop
          (fun i s => for_range (fun j s => s + m ((inp.add (b * n_sums)).add (i + j))) WIN s)
          (n_sums - n_sums % WIN) (NB * WIN) (n_sums - n_sums % WIN) (tid * WIN) 0
        + (if tid < n_sums % WIN then m ((inp.add (b * n_sums)).add (n_sums - 1 - tid))
           else 0) := by
    intro tid
    simp only [rocblas_dot_kernel_reduce_sum, Nat.mul_one]
    split_ifs <;> simp
  rw [Finset.sum_congr rfl (fun tid _ => hthread tid), Finset.sum_add_distrib,
    chunked_loop_sum (fun i => m ((inp.add (b * n_sums)).add i)) WIN NB n_sums hW hNB,
    tail_sum (fun i => m ((inp.add (b * n_sums)).add i)) NB n_sums (n_sums % WIN) hr
      (Nat.mod_le _ _),
    chunks_add_tail (fun i => m ((inp.add (b * n_sums)).add i))]

/-- With a block size `NB = warpSize * 2 ^ c`, `warpSize = 2 ^ a`, `c ≤ a`, and `WIN - 1 ≤ NB`,
a two-phase run with `g ≥ 1` blocks per entry delivers the sum of the per-thread accumulations
of all `g * NB` threads of the entry. -/
theorem two_phase_value_eq (dev : Device R) (NB WIN a c : Nat)
    (hG : dev.warpSize = 2 ^ a) (ha : a ≤ 31) (hNB : NB = dev.warpSize * 2 ^ c) (hc : c ≤ a)
    (hW : 0 < WIN) (hWNB : WIN ≤ NB + 1)
    (ksum : Nat → Nat → Nat → Nat → Nat → R) (g b : Nat) (hg : 0 < g) :
    two_phase_value dev NB WIN ksum g b
      = ∑ bx ∈ Finset.range g, ∑ tid ∈ Finset.range NB, ksum g NB bx b tid := by
  have hNBpos : 0 < NB := by
    rw [hNB, hG]
    positivity
  unfold two_phase_value
  by_cases hg1 : g = 1
  · rw [if_pos hg1, hg1, rocblas_dot_block_reduce_zero dev NB a c hG ha hNB hc]
    simp
  · rw [if_neg hg1, rocblas_dot_block_reduce_zero dev NB a c hG ha hNB hc,
      rocblas_dot_kernel_reduce_total WIN g workspace_ptr _ NB b hW hNBpos
        (by have := Nat.mod_lt g hW; omega)]
    apply Finset.sum_congr rfl
    intro i hi
    have hi2 := Finset.mem_range.mp hi
    have hloc : (workspace_ptr.add (b * g)).add i = Loc.workspace (b * g + i) := by
      simp [workspace_ptr, Loc.add]
    have hmod : (b * g + i) % g = i := by
      rw [Nat.mul_comm, Nat.mul_add_mod]
      exact Nat.mod_eq_of_lt hi2
    have hdiv : (b * g + i) / g = b := by
      rw [Nat.mul_comm, Nat.mul_add_div hg, Nat.div_eq_of_lt hi2, Nat.add_zero]
    rw [hloc]
    simp only [block_sums_mem]
    rw [hmod, hdiv, rocblas_dot_block_reduce_zero dev NB a c hG ha hNB hc]

/-- The grid of `rocblas_dot_kernel` accumulates the logical indices below
`min n (WIN * g * NB)`, each once. -/
theorem rocblas_dot_kernel_total (dev : Device R) (WIN : Nat) (CONJ : Bool) (conj : R → R)
    (batched : Bool) (n : Nat) (xa shiftx incx stridex ya shifty incy stridey : Int)
    (NB g b : Nat) :
    ∑ bx ∈ Finset.range g, ∑ tid ∈ Finset.range NB,
        rocblas_dot_kernel_sum dev WIN CONJ conj batched n xa shiftx incx stridex
          ya shifty incy stridey g NB bx b tid
      = ∑ i ∈ Finset.range (WIN * (g * NB)),
          (if i < n then
            dot_term dev CONJ conj (load_ptr_batch dev batched xa b shiftx stridex)
              (load_ptr_batch dev batched ya b shifty (wrap32 stridey))
              (wrap32 ((i : Int) * incx)) (wrap32 ((i : Int) * incy))
           else 0) := by
  simp only [rocblas_dot_kernel_sum, strided_loop_sum, zero_add]
  exact strided_grid_sum
    (fun i : Nat => dot_term dev CONJ conj (load_ptr_batch dev batched xa b shiftx stridex)
      (load_ptr_batch dev batched ya b shifty (wrap32 stridey))
      (wrap32 ((i : Int) * incx)) (wrap32 ((i : Int) * incy))) WIN NB g n

/-- The per-thread accumulation of `rocblas_dot_kernel_magsq` is that of `rocblas_dot_kernel`
reading `y` through the pointer of `x`. -/
theorem rocblas_dot_kernel_magsq_sum_eq (dev : Device R) (WIN : Nat) (CONJ : Bool) (conj : R → R)
    (batched : Bool) (n : Nat) (xa shiftx incx stridex : Int) (g bd bx b tid : Nat) :
    rocblas_dot_kernel_magsq_sum dev WIN CONJ conj batched n xa shiftx incx stridex g bd bx b tid
      = strided_loop
          (fun i sum => sum + dot_term dev CONJ conj
            (load_ptr_batch dev batched xa b shiftx stridex)
            (load_ptr_batch dev batched xa b shiftx stridex)
            (wrap32 ((i : Int) * incx)) (wrap32 ((i : Int) * incx)))
          n (bd * g) WIN (bx * bd + tid) 0 := rfl

/-- The grid of `rocblas_dot_kernel_magsq` accumulates the logical indices below
`min n (WIN * g * NB)`, each once. -/
theorem rocblas_dot_kernel_magsq_total (dev : Device R) (WIN : Nat) (CONJ : Bool) (conj : R → R)
    (batched : Bool) (n : Nat) (xa shiftx incx stridex : Int) (NB g b : Nat) :
    ∑ bx ∈ Finset.range g, ∑ tid ∈ Finset.range NB,
        rocblas_dot_kernel_magsq_sum dev WIN CONJ conj batched n xa shiftx incx stridex
          g NB bx b tid
      = ∑ i ∈ Finset.range (WIN * (g * NB)),
          (if i < n then
            dot_term dev CONJ conj (load_ptr_batch dev batched xa b shiftx stridex)
              (load_ptr_batch dev batched xa b shiftx stridex)
              (wrap32 ((i : Int) * incx)) (wrap32 ((i : Int) * incx))
           else 0) := by
  simp only [rocblas_dot_kernel_magsq_sum_eq, strided_loop_sum, zero_add]
  exact strided_grid_sum
    (fun i : Nat => dot_term dev CONJ conj (load_ptr_batch dev batched xa b shiftx stridex)
      (load_ptr_batch dev batched xa b shiftx stridex)
      (wrap32 ((i : Int) * incx)) (wrap32 ((i : Int) * incx))) WIN NB g n

/-- The grid of `rocblas_dot_kernel_inc1` accumulates every index below `n` once, for any number
of blocks. -/
theorem rocblas_dot_kernel_inc1_total (dev : Device R) (WIN : Nat) (CONJ : Bool) (conj : R → R)
    (batched : Bool) (n : Nat) (xa shiftx stridex ya shifty stridey : Int) (NB g b : Nat)
    (hW : 0 < WIN) (hNB : 0 < NB) (hg : 0 < g) (hr : n % WIN ≤ NB) :
    ∑ bx ∈ Finset.range g, ∑ tid ∈ Finset.range NB,
        rocblas_dot_kernel_inc1_sum dev WIN CONJ conj batched n xa shiftx stridex
          ya shifty stridey g NB bx b tid
      = ∑ i ∈ Finset.range n,
          dot_term dev CONJ conj (load_ptr_batch dev batched xa b shiftx stridex)
            (load_ptr_batch dev batched ya b shifty (wrap32 stridey)) (i : Int) (i : Int) := by
  have hthread : ∀ bx tid, rocblas_dot_kernel_inc1_sum dev WIN CONJ conj batched n xa shiftx
      stridex ya shifty stridey g NB bx b tid
      = strided_loop
          (fun i s => for_range (fun j s => s +
            dot_term dev CONJ conj (load_ptr_batch dev batched xa b shiftx stridex)
              (load_ptr_batch dev batched ya b shifty (wrap32 stridey))
              ((i + j : Nat) : Int) ((i + j : Nat) : Int)) WIN s)
          (n - n % WIN) (g * NB * WIN) (n - n % WIN) ((bx * NB + tid) * WIN) 0
        + (if bx = 0 ∧ tid < n % WIN then
            dot_term dev CONJ conj (load_ptr_batch dev batched xa b shiftx stridex)
              (load_ptr_batch dev batched ya b shifty (wrap32 stridey))
              ((n - 1 - tid : Nat) : Int) ((n - 1 - tid : Nat) : Int) else 0) := by
    intro bx tid
    simp only [rocblas_dot_kernel_inc1_sum, Nat.cast_add, Nat.mul_comm NB g]
    split_ifs <;> simp
  rw [Finset.sum_congr rfl (fun bx _ => Finset.sum_congr rfl (fun tid _ => hthread bx tid))]
  simp only [Finset.sum_add_distrib]
  rw [← sum_range_mul (fun t => strided_loop
      (fun i s => for_range (fun j s => s +
        dot_term dev CONJ conj (load_ptr_batch dev batched xa b shiftx stridex)
          (load_ptr_batch dev batched ya b shifty (wrap32 stridey))
          ((i + j : Nat) : Int) ((i + j : Nat) : Int)) WIN s)
      (n - n % WIN) (g * NB * WIN) (n - n % WIN) (t * WIN) 0) g NB,
    chunked_loop_sum (fun i : Nat => dot_term dev CONJ conj
      (load_ptr_batch dev batched xa b shiftx stridex)
      (load_ptr_batch dev batched ya b shifty (wrap32 stridey)) (i : Int) (i : Int))
      WIN (g * NB) n hW (Nat.mul_pos hg hNB)]
  obtain ⟨g2, rfl⟩ : ∃ g2, g = g2 + 1 := ⟨g - 1, by omega⟩
  rw [Finset.sum_range_succ']
  have hz : ∑ k ∈ Finset.range g2, ∑ tid ∈ Finset.range NB,
      (if k + 1 = 0 ∧ tid < n % WIN then
        dot_term dev CONJ conj (load_ptr_batch dev batched xa b shiftx stridex)
          (load_ptr_batch dev batched ya b shifty (wrap32 stridey))
          ((n - 1 - tid : Nat) : Int) ((n - 1 - tid : Nat) : Int) else 0) = 0 := by
    apply Finset.sum_eq_zero
    intro k _
    apply Finset.sum_eq_zero
    intro tid _
    rw [if_neg (fun h => Nat.succ_ne_zero k h.1)]
  rw [hz, zero_add]
  simp only [true_and]
  rw [tail_sum (fun i : Nat => dot_term dev CONJ conj
      (load_ptr_batch dev batched xa b shiftx stridex)
      (load_ptr_batch dev batched ya b shifty (wrap32 stridey)) (i : Int) (i : Int))
      NB n (n % WIN) hr (Nat.mod_le _ _),
    chunks_add_tail (fun i : Nat => dot_term dev CONJ conj
      (load_ptr_batch dev batched xa b shiftx stridex)
      (load_ptr_batch dev batched ya b shifty (wrap32 stridey)) (i : Int) (i : Int))]

theorem wrap32_of_range (z : Int) (h1 : -2147483648 ≤ z) (h2 : z < 2147483648) :
    wrap32 z = z := by
  unfold wrap32
  omega

/-- The grid chosen by the template covers the vector. -/
theorem block_count_covers (n : Int) (d : Nat) (hn : 0 < n) (hd : 0 < d) :
    n.toNat ≤ rocblas_reduction_kernel_block_count n d * d := by
  unfold rocblas_reduction_kernel_block_count
  have hnle : ¬ n ≤ 0 := by omega
  rw [if_neg hnle]
  have h := Nat.lt_mul_div_succ (n - 1).toNat hd
  rw [Nat.mul_comm] at h
  omega

/-- What the template delivers to `results[b]`, in closed form, for a block size
`NB = warpSize * 2 ^ c` (`warpSize = 2 ^ a`, `c ≤ a`) with `WIN - 1 ≤ NB`. -/
theorem dot_template_code_value (dev : Device R) (NB a c : Nat)
    (hG : dev.warpSize = 2 ^ a) (ha : a ≤ 31) (hNB : NB = dev.warpSize * 2 ^ c) (hc : c ≤ a)
    (CONJ : Bool) (conj : R → R) (sizeofT : Nat) (batched : Bool) (handle : rocblas_handle)
    (n : Int) (x offsetx incx stridex y offsety incy stridey : Int) (batch_count : Int)
    (st : State R) (hWNB : rocblas_dot_WIN_T sizeofT ≤ NB + 1)
    (hn : 0 < n) (hB : 0 < batch_count)
    (hcopy : handle.pointer_mode = rocblas_pointer_mode.host →
      dev.hipMemcpyAsync_status = rocblas_status.success)
    (b : Nat) (hb : (b : Int) < batch_count) :
    (rocblas_internal_dot_template dev NB CONJ conj sizeofT batched handle n x offsetx incx
        stridex y offsety incy stridey batch_count st).2.mem (Loc.results b)
      = dot_code_value dev CONJ conj sizeofT batched n x offsetx incx stridex
          y offsety incy stridey b := by
  have hW := rocblas_dot_WIN_T_pos sizeofT
  have hNBpos : 0 < NB := by
    rw [hNB, hG]
    positivity
  have hcover : n.toNat ≤ rocblas_dot_WIN_T sizeofT
      * (rocblas_reduction_kernel_block_count n (NB * rocblas_dot_WIN_T sizeofT) * NB) := by
    have h := block_count_covers n (NB * rocblas_dot_WIN_T sizeofT) hn (Nat.mul_pos hNBpos hW)
    have e : rocblas_dot_WIN_T sizeofT
        * (rocblas_reduction_kernel_block_count n (NB * rocblas_dot_WIN_T sizeofT) * NB)
        = rocblas_reduction_kernel_block_count n (NB * rocblas_dot_WIN_T sizeofT)
          * (NB * rocblas_dot_WIN_T sizeofT) := by ring
    rw [e]
    exact h
  rw [dot_template_value dev NB CONJ conj sizeofT batched handle n x offsetx incx stridex
      y offsety incy stridey batch_count st hn hB hcopy b hb,
    two_phase_value_eq dev NB _ a c hG ha hNB hc hW hWNB _ _ b
      (rocblas_reduction_kernel_block_count_pos _ _)]
  unfold template_thread_sum dot_code_value
  by_cases h1 : x ≠ y ∨ incx ≠ incy ∨ offsetx ≠ offsety ∨ stridex ≠ stridey
  · by_cases h2 : incx = 1 ∧ incy = 1 ∧ sizeofT ≥ 8
    · simp only [if_pos h1, if_pos h2]
      rw [rocblas_dot_kernel_inc1_total dev _ CONJ conj batched n.toNat _ _ _ _ _ _ NB _ b hW
        hNBpos (rocblas_reduction_kernel_block_count_pos _ _)
        (by have := Nat.mod_lt n.toNat hW; omega)]
    · simp only [if_pos h1, if_neg h2]
      rw [rocblas_dot_kernel_total, sum_range_ite_lt _ _ _ hcover]
  · simp only [if_neg h1]
    rw [rocblas_dot_kernel_magsq_total, sum_range_ite_lt _ _ _ hcover]

/-- When no index product leaves the 32-bit range and the batch stride of `y` is not narrowed,
the closed form of the code is the reference sum. -/
theorem dot_code_value_eq_reference (dev : Device R) (CONJ : Bool) (conj : R → R)
    (sizeofT : Nat) (batched : Bool) (n : Int)
    (x offsetx incx stridex y offsety incy stridey : Int) (b : Nat)
    (hix : ∀ i : Nat, (i : Int) < n → wrap32 ((i : Int) * incx) = (i : Int) * incx)
    (hiy : ∀ i : Nat, (i : Int) < n → wrap32 ((i : Int) * incy) = (i : Int) * incy)
    (hsy : batched = true ∨ wrap32 stridey = stridey) :
    dot_code_value dev CONJ conj sizeofT batched n x offsetx incx stridex
        y offsety incy stridey b
      = dot_reference dev CONJ conj batched n x offsetx incx stridex y offsety incy stridey b := by
  have hyb : ∀ s : Int, load_ptr_batch dev batched y b s (wrap32 stridey)
      = load_ptr_batch dev batched y b s stridey := by
    intro s
    rcases hsy with h | h
    · simp [load_ptr_batch, h]
    · rw [h]
  unfold dot_code_value dot_reference
  simp only []
  by_cases h1 : x ≠ y ∨ incx ≠ incy ∨ offsetx ≠ offsety ∨ stridex ≠ stridey
  · by_cases h2 : incx = 1 ∧ incy = 1 ∧ sizeofT ≥ 8
    · rw [if_pos h1, if_pos h2, hyb]
      apply Finset.sum_congr rfl
      intro i _
      rw [h2.1, h2.2.1, mul_one]
    · rw [if_pos h1, if_neg h2, hyb]
      apply Finset.sum_congr rfl
      intro i hi
      have hi2 := Finset.mem_range.mp hi
      rw [hix i (by omega), hiy i (by omega)]
  · rw [if_neg h1]
    simp only [not_or, not_not] at h1
    obtain ⟨e1, e2, e3, e4⟩ := h1
    subst e1 e2 e3 e4
    apply Finset.sum_congr rfl
    intro i hi
    have hi2 := Finset.mem_range.mp hi
    rw [hix i (by omega)]

/-- For increments whose products with the indices stay in the 32-bit range, a batch stride of
`y` that is not narrowed, and a block size `NB = warpSize * 2 ^ c` (`warpSize = 2 ^ a`, `c ≤ a`,
`WIN - 1 ≤ NB`), the template delivers the reference sum to `results[b]`. -/
theorem dot_template_reference (dev : Device R) (NB a c : Nat)
    (hG : dev.warpSize = 2 ^ a) (ha : a ≤ 31) (hNB : NB = dev.warpSize * 2 ^ c) (hc : c ≤ a)
    (CONJ : Bool) (conj : R → R) (sizeofT : Nat) (batched : Bool) (handle : rocblas_handle)
    (n : Int) (x offsetx incx stridex y offsety incy stridey : Int) (batch_count : Int)
    (st : State R) (hWNB : rocblas_dot_WIN_T sizeofT ≤ NB + 1)
    (hn : 0 < n) (hB : 0 < batch_count)
    (hcopy : handle.pointer_mode = rocblas_pointer_mode.host →
      dev.hipMemcpyAsync_status = rocblas_status.success)
    (hix : ∀ i : Nat, (i : Int) < n → wrap32 ((i : Int) * incx) = (i : Int) * incx)
    (hiy : ∀ i : Nat, (i : Int) < n → wrap32 ((i : Int) * incy) = (i : Int) * incy)
    (hsy : batched = true ∨ wrap32 stridey = stridey)
    (b : Nat) (hb : (b : Int) < batch_count) :
    (rocblas_internal_dot_template dev NB CONJ conj sizeofT batched handle n x offsetx incx
        stridex y offsety incy stridey batch_count st).2.mem (Loc.results b)
      = dot_reference dev CONJ conj batched n x offsetx incx stridex y offsety incy stridey b := by
  rw [dot_template_code_value dev NB a c hG ha hNB hc CONJ conj sizeofT batched handle n
      x offsetx incx stridex y offsety incy stridey batch_count st hWNB hn hB hcopy b hb,
    dot_code_value_eq_reference dev CONJ conj sizeofT batched n x offsetx incx stridex
      y offsety incy stridey b hix hiy hsy]

/-- The reference sum is unchanged when both increments are negated. -/
theorem dot_reference_neg (dev : Device R) (CONJ : Bool) (conj : R → R) (batched : Bool)
    (n : Int) (x offsetx incx stridex y offsety incy stridey : Int) (b : Nat)
    (hx : incx ≠ 0) (hy : incy ≠ 0) :
    dot_reference dev CONJ conj batched n x offsetx (-incx) stridex y offsety (-incy) stridey b
      = dot_reference dev CONJ conj batched n x offsetx incx stridex y offsety incy stridey
          b := by
  unfold dot_reference
  simp only []
  rw [← Finset.sum_range_reflect (fun i : Nat => dot_term dev CONJ conj
    (load_ptr_batch dev batched x b (if incx < 0 then offsetx - incx * (n - 1) else offsetx)
      stridex)
    (load_ptr_batch dev batched y b (if incy < 0 then offsety - incy * (n - 1) else offsety)
      stridey) ((i : Int) * incx) ((i : Int) * incy)) n.toNat]
  apply Finset.sum_congr rfl
  intro i hi
  have hi2 := Finset.mem_range.mp hi
  have hin : (i : Int) < n := by omega
  unfold dot_term
  rw [element_address_neg dev batched x offsetx incx stridex n b i hx hin,
    element_address_neg dev batched y offsety incy stridey n b i hy hin]

/-- Where no index product leaves the 32-bit range for either sign of the increments, and the
batch stride of `y` is not narrowed, negating both increments leaves the delivered value
unchanged. -/
theorem negation_symmetry_without_wrap (dev : Device R) (NB a c : Nat)
    (hG : dev.warpSize = 2 ^ a) (ha : a ≤ 31) (hNB : NB = dev.warpSize * 2 ^ c) (hc : c ≤ a)
    (CONJ : Bool) (conj : R → R) (sizeofT : Nat) (batched : Bool) (handle : rocblas_handle)
    (n : Int) (x offsetx incx stridex y offsety incy stridey : Int) (batch_count : Int)
    (st st2 : State R) (hWNB : rocblas_dot_WIN_T sizeofT ≤ NB + 1)
    (hn : 0 < n) (hB : 0 < batch_count)
    (hcopy : handle.pointer_mode = rocblas_pointer_mode.host →
      dev.hipMemcpyAsync_status = rocblas_status.success)
    (hx : incx ≠ 0) (hy : incy ≠ 0)
    (hix : ∀ i : Nat, (i : Int) < n → wrap32 ((i : Int) * incx) = (i : Int) * incx)
    (hiy : ∀ i : Nat, (i : Int) < n → wrap32 ((i : Int) * incy) = (i : Int) * incy)
    (hix2 : ∀ i : Nat, (i : Int) < n → wrap32 ((i : Int) * -incx) = (i : Int) * -incx)
    (hiy2 : ∀ i : Nat, (i : Int) < n → wrap32 ((i : Int) * -incy) = (i : Int) * -incy)
    (hsy : batched = true ∨ wrap32 stridey = stridey)
    (b : Nat) (hb : (b : Int) < batch_count) :
    (rocblas_internal_dot_template dev NB CONJ conj sizeofT batched handle n x offsetx (-incx)
        stridex y offsety (-incy) stridey batch_count st).2.mem (Loc.results b)
      = (rocblas_internal_dot_template dev NB CONJ conj sizeofT batched handle n x offsetx incx
          stridex y offsety incy stridey batch_count st2).2.mem (Loc.results b) := by
  rw [dot_template_reference dev NB a c hG ha hNB hc CONJ conj sizeofT batched handle n
      x offsetx (-incx) stridex y offsety (-incy) stridey batch_count st hWNB hn hB hcopy
      hix2 hiy2 hsy b hb,
    dot_template_reference dev NB a c hG ha hNB hc CONJ conj sizeofT batched handle n
      x offsetx incx stridex y offsety incy stridey batch_count st2 hWNB hn hB hcopy
      hix hiy hsy b hb,
    dot_reference_neg dev CONJ conj batched n x offsetx incx stridex y offsety incy stridey b
      hx hy]

end Totals

/-! ## End-to-end value -/

section EndToEnd

/-- C1 at a failing input: `n = 3`, `incx = 2^30`, `incy = 1`, 4-byte elements, `NB = 512`, one
batch entry, input memory holding `a` at address `a`, `x` at address 0 and `y` at address
`10^10`.  For `i = 2` the kernel computes `i * incx` in 32 bits and reads `x[-2^31]` instead of
`x[2^31]`: the value delivered to `results[0]` is not the reference sum. -/
theorem large_increment_reads_wrong_element :
    (rocblas_internal_dot_template sample_device 512 false id 4 false device_handle 3
      0 0 1073741824 0 10000000000 0 1 0 1 sample_state).2.mem (Loc.results 0)
      = -10737418243221225472 ∧
    dot_reference sample_device false id false 3 0 0 1073741824 0 10000000000 0 1 0 0
      = 32212254725368709120 := by
  constructor
  · rw [dot_template_code_value sample_device 512 6 3 rfl (by decide) rfl (by decide) false id 4
      false device_handle 3 0 0 1073741824 0 10000000000 0 1 0 1 sample_state (by decide)
      (by decide) (by decide) (fun _ => rfl) 0 (by decide)]
    simp [dot_code_value, dot_term, load_ptr_batch, sample_device, wrap32, Finset.sum_range_succ]
  · simp [dot_reference, dot_term, load_ptr_batch, sample_device, Finset.sum_range_succ]

/-- C8 at a failing input: the self-product of `n = 3` elements at offset 5 with
`incx = incy = 2^30` and with `incx = incy = -2^30` (4-byte elements, `NB = 512`, input memory
holding `a` at address `a`).  With the negative increment the three stored elements
`5 + j * 2^30` are read; with the positive one the product `2 * 2^30` wraps and `x[5 - 2^31]` is
read instead of `x[5 + 2^31]`, so the two results differ. -/
theorem negated_increments_differ :
    (rocblas_internal_dot_template sample_device 512 false id 4 false device_handle 3
      0 5 1073741824 0 0 5 1073741824 0 1 sample_state).2.mem (Loc.results 0)
      = 5764607512296816715 ∧
    (rocblas_internal_dot_template sample_device 512 false id 4 false device_handle 3
      0 5 (-1073741824) 0 0 5 (-1073741824) 0 1 sample_state).2.mem (Loc.results 0)
      = 5764607555246489675 ∧
    dot_reference sample_device false id false 3 0 5 1073741824 0 0 5 1073741824 0 0
      = 5764607555246489675 := by
  refine ⟨?_, ?_, ?_⟩
  · rw [dot_template_code_value sample_device 512 6 3 rfl (by decide) rfl (by decide) false id 4
      false device_handle 3 0 5 1073741824 0 0 5 1073741824 0 1 sample_state (by decide)
      (by decide) (by decide) (fun _ => rfl) 0 (by decide)]
    simp [dot_code_value, dot_term, load_ptr_batch, sample_device, wrap32, Finset.sum_range_succ]
  · rw [dot_template_code_value sample_device 512 6 3 rfl (by decide) rfl (by decide) false id 4
      false device_handle 3 0 5 (-1073741824) 0 0 5 (-1073741824) 0 1 sample_state (by decide)
      (by decide) (by decide) (fun _ => rfl) 0 (by decide)]
    simp [dot_code_value, dot_term, load_ptr_batch, sample_device, wrap32, Finset.sum_range_succ]
  · simp [dot_reference, dot_term, load_ptr_batch, sample_device, Finset.sum_range_succ]

end EndToEnd

/-! ## Grid shape -/

section GridShape

variable {R : Type} [CommRing R]

end GridShape

/-! ## Kernel selection -/

section Selection

variable {R : Type} [CommRing R]

/-- The operations of a non-degenerate call: those of the kernels, then in host pointer mode the
copy, when it succeeds. -/
theorem dot_template_log (dev : Device R) (NB : Nat) (CONJ : Bool) (conj : R → R)
    (sizeofT : Nat) (batched : Bool) (handle : rocblas_handle) (n : Int)
    (x offsetx incx stridex y offsety incy stridey : Int) (batch_count : Int) (st : State R)
    (hn : 0 < n) (hB : batch_count ≠ 0) :
    ∃ tail : List Event, (∀ e ∈ tail, e.is_launch = false) ∧
      (rocblas_internal_dot_template dev NB CONJ conj sizeofT batched handle n x offsetx incx
        stridex y offsety incy stridey batch_count st).2.log
        = (dot_template_kernels dev NB CONJ conj sizeofT batched handle n x offsetx incx stridex
            y offsety incy stridey batch_count st).log ++ tail := by
  have hdeg : ¬ (n ≤ 0 ∨ batch_count = 0) := by omega
  unfold rocblas_internal_dot_template
  rw [if_neg hdeg]
  simp only []
  split_ifs
  · exact ⟨[], by simp, by simp⟩
  · exact ⟨[], by simp, by simp⟩
  · refine ⟨[Event.hipMemcpyAsync results_ptr
      (workspace_ptr.add (batch_count.toNat
        * rocblas_reduction_kernel_block_count n (NB * rocblas_dot_WIN_T sizeofT)))
      batch_count.toNat], ?_, rfl⟩
    intro e he
    rw [List.mem_singleton] at he
    rw [he]
    rfl

theorem template_kernel_id_eq (sizeofT : Nat) (x offsetx incx stridex y offsety incy stridey : Int) :
    template_kernel_id sizeofT x offsetx incx stridex y offsety incy stridey
      = if x = y ∧ incx = incy ∧ offsetx = offsety ∧ stridex = stridey then Kernel.dot_magsq
        else if incx = 1 ∧ incy = 1 ∧ sizeofT ≥ 8 then Kernel.dot_inc1 else Kernel.dot := by
  unfold template_kernel_id
  by_cases h : x = y ∧ incx = incy ∧ offsetx = offsety ∧ stridex = stridey
  · have h2 : ¬ (x ≠ y ∨ incx ≠ incy ∨ offsetx ≠ offsety ∨ stridex ≠ stridey) := by
      obtain ⟨h1, h2, h3, h4⟩ := h
      simp [h1, h2, h3, h4]
    rw [if_pos h, if_neg h2]
  · have h2 : x ≠ y ∨ incx ≠ incy ∨ offsetx ≠ offsety ∨ stridex ≠ stridey := by
      by_contra hc
      push_neg at hc
      exact h hc
    rw [if_neg h, if_pos h2]

theorem template_kernel_id_phase1 (sizeofT : Nat)
    (x offsetx incx stridex y offsety incy stridey : Int) (g B bd : Nat) (ws out : Loc) :
    (Event.launch (template_kernel_id sizeofT x offsetx incx stridex y offsety incy stridey)
      g B bd ws out).is_phase1_launch = true := by
  unfold template_kernel_id
  split_ifs <;> rfl

/-- C11: a call with `n > 0` and `batch_count ≠ 0` issues exactly one launch of a work-partition
(phase-1) kernel: `rocblas_dot_kernel_magsq` if and only if `x == y`, `incx == incy`,
`offsetx == offsety` and `stridex == stridey`; otherwise `rocblas_dot_kernel_inc1` if and only if
`incx == 1`, `incy == 1` and `sizeof(T) >= 8`; otherwise `rocblas_dot_kernel`.  The launch has
`blocks` by `batch_count` blocks of `NB` threads. -/
theorem kernel_selection (dev : Device R) (NB : Nat) (CONJ : Bool) (conj : R → R)
    (sizeofT : Nat) (batched : Bool) (handle : rocblas_handle) (n : Int)
    (x offsetx incx stridex y offsety incy stridey : Int) (batch_count : Int) (st : State R)
    (hn : 0 < n) (hB : batch_count ≠ 0) :
    (((rocblas_internal_dot_template dev NB CONJ conj sizeofT batched handle n x offsetx incx
        stridex y offsety incy stridey batch_count st).2.log.drop st.log.length).filter
        Event.is_phase1_launch)
      = [Event.launch
          (if x = y ∧ incx = incy ∧ offsetx = offsety ∧ stridex = stridey then Kernel.dot_magsq
            else if incx = 1 ∧ incy = 1 ∧ sizeofT ≥ 8 then Kernel.dot_inc1 else Kernel.dot)
          (rocblas_reduction_kernel_block_count n (NB * rocblas_dot_WIN_T sizeofT))
          batch_count.toNat NB workspace_ptr
          (template_output handle batch_count
            (rocblas_reduction_kernel_block_count n (NB * rocblas_dot_WIN_T sizeofT)))] := by
  obtain ⟨tail, htail, hlog⟩ := dot_template_log dev NB CONJ conj sizeofT batched handle n
    x offsetx incx stridex y offsety incy stridey batch_count st hn hB
  have htl : tail.filter Event.is_phase1_launch = [] := by
    rw [List.filter_eq_nil_iff]
    intro e he
    have h := htail e he
    cases e <;> simp_all [Event.is_launch, Event.is_phase1_launch]
  rw [hlog, dot_template_kernels_log, List.append_assoc, List.drop_left, List.filter_append,
    htl, List.append_nil, List.filter_cons, template_kernel_id_phase1, if_pos rfl,
    ← template_kernel_id_eq]
  congr 1
  split_ifs <;> rfl

/-- Witness of C11: two distinct unit-stride vectors of 8-byte elements select
`rocblas_dot_kernel_inc1`. -/
theorem kernel_selection_witness :
    (0 : Int) < 5000 ∧ (2 : Int) ≠ 0 ∧
    (((rocblas_internal_dot_template sample_device 512 false id 8 false host_handle 5000
        0 0 1 6000 10000 0 1 6000 2 sample_state).2.log.drop sample_state.log.length).filter
        Event.is_phase1_launch)
      = [Event.launch Kernel.dot_inc1 5 2 512 workspace_ptr (workspace_ptr.add 10)] :=
  ⟨by decide, by decide,
    (kernel_selection sample_device 512 false id 8 false host_handle 5000
      0 0 1 6000 10000 0 1 6000 2 sample_state (by decide) (by decide)).trans (by decide)⟩

end Selection

/-! ## Negative increments -/

section Window

variable {R : Type} [CommRing R]

/-- The kernels are handed `template_shift n offsetx incx` and `template_shift n offsety incy` as
the starts of `x` and `y`. -/
theorem template_thread_sum_shift (dev : Device R) (CONJ : Bool) (conj : R → R) (sizeofT : Nat)
    (batched : Bool) (n : Int) (x offsetx incx stridex y offsety incy stridey : Int) :
    template_thread_sum dev CONJ conj sizeofT batched n x offsetx incx stridex y offsety incy
        stridey
      = if x ≠ y ∨ incx ≠ incy ∨ offsetx ≠ offsety ∨ stridex ≠ stridey then
          if incx = 1 ∧ incy = 1 ∧ sizeofT ≥ 8 then
            rocblas_dot_kernel_inc1_sum dev (rocblas_dot_WIN_T sizeofT) CONJ conj batched n.toNat
              x (template_shift n offsetx incx) stridex y (template_shift n offsety incy) stridey
          else
            rocblas_dot_kernel_sum dev (rocblas_dot_WIN_T sizeofT) CONJ conj batched n.toNat
              x (template_shift n offsetx incx) incx stridex
              y (template_shift n offsety incy) incy stridey
        else
          rocblas_dot_kernel_magsq_sum dev (rocblas_dot_WIN_T sizeofT) CONJ conj batched n.toNat
            x (template_shift n offsetx incx) incx stridex := rfl

theorem template_shift_neg (n offset inc i : Int) (hinc : inc < 0) :
    template_shift n offset inc + i * inc = offset + |inc| * (n - 1 - i) := by
  unfold template_shift
  rw [if_pos hinc, abs_of_neg hinc]
  ring

/-- C15: for a negative increment, the position `shift + i * inc` of logical index
`0 <= i < n`, with `shift = offset - inc * (n - 1)` as the template computes it, equals
`offset + |inc| * (n - 1 - i)`, lies in `[offset, offset + |inc| * (n - 1)]`, and `i ↦ shift +
i * inc` is one-to-one from `[0, n)` onto the positions `offset + j * |inc|`, `0 <= j < n`; for a
positive increment the shift is `offset`.  The template computes the shifts of `x` and of `y`
by this same function. -/
theorem negative_increment_window (n offset inc : Int) :
    (inc < 0 →
      (∀ i : Int, 0 ≤ i → i < n →
        template_shift n offset inc + i * inc = offset + |inc| * (n - 1 - i) ∧
        offset ≤ template_shift n offset inc + i * inc ∧
        template_shift n offset inc + i * inc ≤ offset + |inc| * (n - 1)) ∧
      (∀ i i2 : Int, 0 ≤ i → i < n → 0 ≤ i2 → i2 < n →
        template_shift n offset inc + i * inc = template_shift n offset inc + i2 * inc →
        i = i2) ∧
      (∀ i : Int, 0 ≤ i → i < n →
        ∃ j : Int, 0 ≤ j ∧ j < n ∧ template_shift n offset inc + i * inc = offset + j * |inc|) ∧
      (∀ j : Int, 0 ≤ j → j < n →
        ∃ i : Int, 0 ≤ i ∧ i < n ∧ template_shift n offset inc + i * inc = offset + j * |inc|)) ∧
    (0 < inc → template_shift n offset inc = offset) ∧
    template_shift n offset inc = (if inc < 0 then offset - inc * (n - 1) else offset) := by
  refine ⟨?_, ?_, rfl⟩
  · intro hinc
    have habs : |inc| = -inc := abs_of_neg hinc
    have hpos : 0 < -inc := by omega
    refine ⟨?_, ?_, ?_, ?_⟩
    · intro i hi0 hin
      rw [template_shift_neg n offset inc i hinc, habs]
      have h1 : 0 ≤ -inc * (n - 1 - i) := mul_nonneg hpos.le (by omega)
      have h2 : -inc * (n - 1 - i) ≤ -inc * (n - 1) :=
        mul_le_mul_of_nonneg_left (by omega) hpos.le
      exact ⟨rfl, by omega, by omega⟩
    · intro i i2 _ _ _ _ h
      have h2 : i * inc = i2 * inc := by omega
      exact mul_right_cancel₀ (by omega) h2
    · intro i hi0 hin
      refine ⟨n - 1 - i, by omega, by omega, ?_⟩
      rw [template_shift_neg n offset inc i hinc]
      ring
    · intro j hj0 hjn
      refine ⟨n - 1 - j, by omega, by omega, ?_⟩
      rw [template_shift_neg n offset inc (n - 1 - j) hinc]
      ring
  · intro hinc
    unfold template_shift
    rw [if_neg (by omega)]

/-- Witness of C15: `n = 4`, `offset = 10`, `inc = -3`: logical index 1 is read at position
`10 + 3 * 2 = 16`. -/
theorem negative_increment_window_witness :
    (-3 : Int) < 0 ∧ (0 : Int) ≤ 1 ∧ (1 : Int) < 4 ∧
    template_shift 4 10 (-3) + 1 * (-3) = 10 + |(-3 : Int)| * (4 - 1 - 1) :=
  ⟨by decide, by decide, by decide,
    (((negative_increment_window 4 10 (-3)).1 (by decide)).1 1 (by decide) (by decide)).1⟩

end Window

/-! ## Block and wavefront reducers, stage by stage -/

section ReducerStages

variable {R : Type} [CommRing R]

theorem rocblas_log2ui_loop_floor (k ax fuel v : Nat) (h1 : 2 ^ k ≤ ax) (h2 : ax < 2 ^ (k + 1))
    (hf : k < fuel) : rocblas_log2ui_loop fuel ax v = v + k := by
  induction k generalizing ax fuel v with
  | zero =>
    obtain ⟨f, rfl⟩ : ∃ f, fuel = f + 1 := ⟨fuel - 1, by omega⟩
    have hax : ax = 1 := by
      simp only [pow_zero, zero_add, pow_one] at h1 h2
      omega
    subst hax
    simp [rocblas_log2ui_loop]
  | succ k ih =>
    obtain ⟨f, rfl⟩ : ∃ f, fuel = f + 1 := ⟨fuel - 1, by omega⟩
    have hs : ax >>> 1 = ax / 2 := by simp [Nat.shiftRight_eq_div_pow]
    have hpos : 0 < 2 ^ k := by positivity
    have e1 : 2 ^ (k + 1) = 2 * 2 ^ k := by rw [Nat.pow_succ]; omega
    have e2 : 2 ^ (k + 1 + 1) = 2 * 2 ^ (k + 1) := by rw [Nat.pow_succ]; omega
    have hl : 2 ^ k ≤ ax / 2 := by omega
    have hu : ax / 2 < 2 ^ (k + 1) := by omega
    have hne : ax / 2 ≠ 0 := by omega
    rw [rocblas_log2ui_loop, hs, if_pos hne, ih (ax / 2) f (v + 1) hl hu (by omega)]
    omega

/-- For `2 ^ k <= m < 2 ^ (k + 1)`, `rocblas_log2ui(m)` is `k`. -/
theorem rocblas_log2ui_floor (m k : Nat) (h1 : 2 ^ k ≤ m) (h2 : m < 2 ^ (k + 1))
    (hk : k ≤ 31) : rocblas_log2ui (m : Int) = k := by
  have hlt : m < 4294967296 := by
    have : (2 : Nat) ^ (k + 1) ≤ 2 ^ 32 := Nat.pow_le_pow_right (by norm_num) (by omega)
    omega
  have hmod : (m : Int) % 4294967296 = (m : Int) := by
    apply Int.emod_eq_of_lt
    · exact Int.natCast_nonneg _
    · exact_mod_cast hlt
  unfold rocblas_log2ui
  rw [hmod, Int.toNat_natCast, rocblas_log2ui_loop_floor k m 32 0 h1 h2 (by omega), Nat.zero_add]

/-- With `2 ^ k <= N < 2 ^ (k + 1)`, `wavefront_reduce<N>` makes `k` rounds: a lane with
`2 ^ k - 1` lanes above it in its wavefront ends with the sum of the `2 ^ k` values starting at
its own. -/
theorem wavefront_reduce_floor (G N k : Nat) (h1 : 2 ^ k ≤ N) (h2 : N < 2 ^ (k + 1))
    (hk : k ≤ 31) (val : Nat → R) (tid : Nat) (h : tid % G + 2 ^ k ≤ G) :
    wavefront_reduce G N val tid = ∑ m ∈ Finset.range (2 ^ k), val (tid + m) := by
  simp only [wavefront_reduce]
  rw [rocblas_log2ui_floor N k h1 h2 hk]
  cases k with
  | zero => simp [wavefront_reduce_loop]
  | succ k =>
    have hoff : 1 <<< (k + 1 - 1) = 2 ^ (k + 1) / 2 := by
      rw [Nat.add_sub_cancel, Nat.one_shiftLeft, Nat.pow_succ]; simp
    rw [hoff]
    exact wavefront_reduce_loop_sum G (k + 1) val tid h

/-- The block reducer in terms of its staging array. -/
theorem rocblas_dot_block_reduce_eq_psums (dev : Device R) (NB : Nat) (val : Nat → R) :
    rocblas_dot_block_reduce dev NB val
      = fun t =>
          if t / dev.warpSize = 0 then
            wavefront_reduce dev.warpSize (NB / dev.warpSize)
              (fun t => if t < NB / dev.warpSize
                then rocblas_dot_block_reduce_psums dev NB val (t % dev.warpSize) else 0) t
          else if t < NB / dev.warpSize
            then rocblas_dot_block_reduce_psums dev NB val (t % dev.warpSize) else 0 := rfl

/-- Staging slot `s` of an existing wavefront holds the sum of that wavefront's values. -/
theorem rocblas_dot_block_reduce_psums_eq (dev : Device R) (NB a : Nat)
    (hG : dev.warpSize = 2 ^ a) (ha : a ≤ 31) (val : Nat → R) (s : Nat)
    (hs : s * dev.warpSize < NB) :
    rocblas_dot_block_reduce_psums dev NB val s
      = ∑ l ∈ Finset.range dev.warpSize, val (s * dev.warpSize + l) := by
  unfold rocblas_dot_block_reduce_psums
  simp only []
  rw [if_pos hs]
  have hw := wavefront_reduce_pow dev.warpSize a ha val (s * dev.warpSize)
    (by rw [Nat.mul_mod_left, hG]; omega)
  rw [← hG] at hw
  exact hw

/-- Thread 0 of a block of `NB = warpSize * M` threads, `warpSize = 2 ^ a`,
`2 ^ k <= M < 2 ^ (k + 1)`, `M <= warpSize`: the second stage makes `k` rounds and combines the
first `2 ^ k` staging slots only. -/
theorem rocblas_dot_block_reduce_floor (dev : Device R) (NB a M k : Nat)
    (hG : dev.warpSize = 2 ^ a) (ha : a ≤ 31) (hNB : NB = dev.warpSize * M)
    (h1 : 2 ^ k ≤ M) (h2 : M < 2 ^ (k + 1)) (hM : M ≤ dev.warpSize) (val : Nat → R) :
    rocblas_dot_block_reduce dev NB val 0
      = ∑ t ∈ Finset.range (dev.warpSize * 2 ^ k), val t := by
  have hGpos : 0 < dev.warpSize := by rw [hG]; positivity
  have hdiv : NB / dev.warpSize = M := by rw [hNB]; exact Nat.mul_div_cancel_left _ hGpos
  have hk : k ≤ 31 := by
    by_contra hc
    have h3 : (2 : Nat) ^ a < 2 ^ k := Nat.pow_lt_pow_right (by norm_num) (by omega)
    omega
  rw [rocblas_dot_block_reduce_eq_psums]
  simp only []
  rw [if_pos (Nat.zero_div _), hdiv,
    wavefront_reduce_floor _ M k h1 h2 hk _ 0 (by rw [Nat.zero_mod]; omega)]
  rw [Nat.mul_comm, sum_range_mul]
  apply Finset.sum_congr rfl
  intro m hm
  have hm2 := Finset.mem_range.mp hm
  have hmG : m < dev.warpSize := by omega
  have hmNB : m * dev.warpSize < NB := by
    rw [hNB, Nat.mul_comm]
    exact Nat.mul_lt_mul_of_pos_left (by omega) hGpos
  rw [Nat.zero_add, if_pos (by omega), Nat.mod_eq_of_lt hmG,
    rocblas_dot_block_reduce_psums_eq dev NB a hG ha val m hmNB]

theorem wavefront_reduce_loop_vanish (G r offset : Nat) (val : Nat → R)
    (h : ∀ t, 1 ≤ t → val t = 0) (t : Nat) (ht : 1 ≤ t) :
    wavefront_reduce_loop G r offset val t = 0 := by
  induction r generalizing val offset with
  | zero => exact h t ht
  | succ r ih =>
    rw [wavefront_reduce_loop]
    apply ih
    intro u hu
    unfold shfl_down
    split_ifs
    · rw [h u hu, h (u + offset) (by omega), add_zero]
    · rw [h u hu, add_zero]

theorem wavefront_reduce_loop_offsets_pow (r : Nat) :
    wavefront_reduce_loop_offsets (r + 1) (2 ^ r)
      = (List.range (r + 1)).map (fun j => 2 ^ (r - j)) := by
  induction r with
  | zero => rfl
  | succ r ih =>
    have hs : (2 ^ (r + 1)) >>> 1 = 2 ^ r := by
      rw [Nat.shiftRight_eq_div_pow, Nat.pow_succ]
      simp
    rw [wavefront_reduce_loop_offsets, hs, ih, List.range_succ_eq_map (r + 1), List.map_cons,
      List.map_map]
    congr 1
    apply List.map_congr_left
    intro j hj
    have := List.mem_range.mp hj
    simp only [Function.comp, Nat.succ_eq_add_one]
    congr 1
    omega

/-- The rounds of `wavefront_reduce<2 ^ a>`: `a` of them, with offsets `2 ^ (a - 1)`, ..., 1. -/
theorem wavefront_reduce_offsets_pow (a : Nat) (ha : a ≤ 31) :
    wavefront_reduce_offsets (2 ^ a) = (List.range a).map (fun j => 2 ^ (a - 1 - j)) := by
  unfold wavefront_reduce_offsets
  simp only []
  rw [rocblas_log2ui_pow a ha]
  cases a with
  | zero => rfl
  | succ r =>
    rw [Nat.add_sub_cancel, Nat.one_shiftLeft, wavefront_reduce_loop_offsets_pow]

/-- C16, at a block of three wavefronts: `NB = 192` on a device with 64-lane wavefronts, every
thread holding 1.  `rocblas_log2ui(3) = 1`, so the second stage makes one round and thread 0
obtains the sum of the first two staging slots, 128, not the sum 192 of the block. -/
theorem block_reduce_three_wavefronts :
    rocblas_dot_block_reduce sample_device 192 (fun _ => 1) 0 = 128 ∧
    ∑ _t ∈ Finset.range 192, (1 : Int) = 192 ∧
    rocblas_dot_block_reduce sample_device 192 (fun _ => 1) 0
      ≠ ∑ _t ∈ Finset.range 192, (1 : Int) := by
  have h : rocblas_dot_block_reduce sample_device 192 (fun _ => 1) 0 = 128 := by
    rw [rocblas_dot_block_reduce_floor sample_device 192 6 3 1 rfl (by decide) rfl (by decide)
      (by decide) (by decide)]
    simp [sample_device]
  refine ⟨h, by simp, ?_⟩
  rw [h]
  simp

/-- C16, amended: for a wavefront width `G = 2 ^ a` and a block size `NB = G * M` with
`1 <= M <= G`, `rocblas_dot_block_reduce<NB>` returns to thread 0 the sum of the values of the
first `G * 2 ^ k` threads, where `k = floor(log2(M))`; this is the sum of all `NB` values when
`M = NB / G` is a power of two. -/
theorem block_reduce_contract (dev : Device R) (NB a M k : Nat)
    (hG : dev.warpSize = 2 ^ a) (ha : a ≤ 31) (hNB : NB = dev.warpSize * M)
    (h1 : 2 ^ k ≤ M) (h2 : M < 2 ^ (k + 1)) (hM : M ≤ dev.warpSize) (val : Nat → R) :
    rocblas_dot_block_reduce dev NB val 0 = ∑ t ∈ Finset.range (dev.warpSize * 2 ^ k), val t ∧
    (M = 2 ^ k → rocblas_dot_block_reduce dev NB val 0 = ∑ t ∈ Finset.range NB, val t) := by
  have h := rocblas_dot_block_reduce_floor dev NB a M k hG ha hNB h1 h2 hM val
  refine ⟨h, ?_⟩
  intro hMk
  rw [h, hNB, hMk]

/-- Witness of C16: three wavefronts of 64 lanes, thread `t` holding `t`. -/
theorem block_reduce_contract_witness :
    sample_device.warpSize = 2 ^ 6 ∧ 6 ≤ 31 ∧ 192 = sample_device.warpSize * 3 ∧
    2 ^ 1 ≤ 3 ∧ 3 < 2 ^ (1 + 1) ∧ 3 ≤ sample_device.warpSize ∧
    rocblas_dot_block_reduce sample_device 192 (fun t => (t : Int)) 0
      = ∑ t ∈ Finset.range (sample_device.warpSize * 2 ^ 1), (t : Int) :=
  ⟨rfl, by decide, rfl, by decide, by decide, by decide,
    (block_reduce_contract sample_device 192 6 3 1 rfl (by decide) rfl (by decide)
      (by decide) (by decide) (fun t => (t : Int))).1⟩

/-- C17: with a wavefront width `G = 2 ^ a` and `NB / G = 2 ^ c`, `1 <= NB / G <= G`, under the
shuffle-down semantics in which a lane receives the value `offset` lanes above it when that lane
lies in the wavefront and its own value otherwise: lane 0 of every wavefront obtains the sum of
its wavefront, that sum is what its staging slot holds, thread 0 obtains the sum of the
`NB / G` staging slots, which is the sum of the `NB` inputs, and the second stage makes
`c` rounds, none when `NB = G`. -/
theorem block_reduce_power_of_two (dev : Device R) (NB a c : Nat)
    (hG : dev.warpSize = 2 ^ a) (ha : a ≤ 31) (hNB : NB = dev.warpSize * 2 ^ c) (hc : c ≤ a)
    (val : Nat → R) :
    (∀ (v : Nat → R) (offset l : Nat), shfl_down dev.warpSize v offset l
      = if l % dev.warpSize + offset < dev.warpSize then v (l + offset) else v l) ∧
    (∀ s, s < NB / dev.warpSize →
      wavefront_reduce dev.warpSize dev.warpSize val (s * dev.warpSize)
        = ∑ l ∈ Finset.range dev.warpSize, val (s * dev.warpSize + l)) ∧
    (∀ s, s < NB / dev.warpSize →
      rocblas_dot_block_reduce_psums dev NB val s
        = wavefront_reduce dev.warpSize dev.warpSize val (s * dev.warpSize)) ∧
    rocblas_dot_block_reduce dev NB val 0
      = ∑ s ∈ Finset.range (NB / dev.warpSize), rocblas_dot_block_reduce_psums dev NB val s ∧
    rocblas_dot_block_reduce dev NB val 0 = ∑ t ∈ Finset.range NB, val t ∧
    (wavefront_reduce_offsets (NB / dev.warpSize)).length = c ∧
    (NB = dev.warpSize → wavefront_reduce_offsets (NB / dev.warpSize) = []) := by
  have hGpos : 0 < dev.warpSize := by rw [hG]; positivity
  have hcG : 2 ^ c ≤ dev.warpSize := by rw [hG]; exact Nat.pow_le_pow_right (by norm_num) hc
  have hdiv : NB / dev.warpSize = 2 ^ c := by rw [hNB]; exact Nat.mul_div_cancel_left _ hGpos
  have hslot : ∀ s, s < NB / dev.warpSize → s * dev.warpSize < NB := by
    intro s hs
    rw [hdiv] at hs
    rw [hNB, Nat.mul_comm]
    exact Nat.mul_lt_mul_of_pos_left hs hGpos
  have hlane : ∀ s, wavefront_reduce dev.warpSize dev.warpSize val (s * dev.warpSize)
      = ∑ l ∈ Finset.range dev.warpSize, val (s * dev.warpSize + l) := by
    intro s
    have hw := wavefront_reduce_pow dev.warpSize a ha val (s * dev.warpSize)
      (by rw [Nat.mul_mod_left, hG]; omega)
    rw [← hG] at hw
    exact hw
  have hoff : wavefront_reduce_offsets (NB / dev.warpSize)
      = (List.range c).map (fun j => 2 ^ (c - 1 - j)) := by
    rw [hdiv]
    exact wavefront_reduce_offsets_pow c (by omega)
  refine ⟨fun _ _ _ => rfl, fun s _ => hlane s, ?_, ?_,
    rocblas_dot_block_reduce_zero dev NB a c hG ha hNB hc val, ?_, ?_⟩
  · intro s hs
    rw [rocblas_dot_block_reduce_psums_eq dev NB a hG ha val s (hslot s hs), hlane]
  · rw [rocblas_dot_block_reduce_eq_psums]
    simp only []
    rw [if_pos (Nat.zero_div _), hdiv,
      wavefront_reduce_pow _ c (by omega) _ 0 (by rw [Nat.zero_mod]; omega)]
    apply Finset.sum_congr rfl
    intro m hm
    have hm2 := Finset.mem_range.mp hm
    rw [Nat.zero_add, if_pos hm2, Nat.mod_eq_of_lt (by omega)]
  · rw [hoff, List.length_map, List.length_range]
  · intro hone
    have hc0 : c = 0 := by
      have h3 : NB / dev.warpSize = 1 := by rw [hone]; exact Nat.div_self hGpos
      rw [hdiv] at h3
      by_contra hne
      have : 2 ^ 1 ≤ 2 ^ c := Nat.pow_le_pow_right (by norm_num) (by omega)
      omega
    rw [hoff, hc0]
    rfl

/-- Witness of C17: eight wavefronts of 64 lanes, thread `t` holding `t`. -/
theorem block_reduce_power_of_two_witness :
    sample_device.warpSize = 2 ^ 6 ∧ 6 ≤ 31 ∧ 512 = sample_device.warpSize * 2 ^ 3 ∧ 3 ≤ 6 ∧
    rocblas_dot_block_reduce sample_device 512 (fun t => (t : Int)) 0
      = ∑ t ∈ Finset.range 512, (t : Int) :=
  ⟨rfl, by decide, rfl, by decide,
    (block_reduce_power_of_two sample_device 512 6 3 rfl (by decide) rfl (by decide)
      (fun t => (t : Int))).2.2.2.2.1⟩

/-- C18, at lane 1: in a wavefront of 64 lanes in which lane 0 holds 1 and every other lane 0,
lane 1 ends with 0, not with the sum 1 of the 64 values. -/
theorem wavefront_reduce_upper_lane :
    wavefront_reduce 64 64 (fun t => if t = 0 then (1 : Int) else 0) 1 = 0 ∧
    ∑ l ∈ Finset.range 64, (if l = 0 then (1 : Int) else 0) = 1 ∧
    wavefront_reduce 64 64 (fun t => if t = 0 then (1 : Int) else 0) 1
      ≠ ∑ l ∈ Finset.range 64, (if l = 0 then (1 : Int) else 0) := by
  have h : wavefront_reduce 64 64 (fun t => if t = 0 then (1 : Int) else 0) 1 = 0 := by
    unfold wavefront_reduce
    apply wavefront_reduce_loop_vanish
    · intro t ht
      rw [if_neg (by omega)]
    · exact Nat.le_refl 1
  have hs : ∑ l ∈ Finset.range 64, (if l = 0 then (1 : Int) else 0) = 1 := by
    rw [Finset.sum_ite_eq' (Finset.range 64) 0 (fun _ => (1 : Int))]
    simp
  refine ⟨h, hs, ?_⟩
  rw [h, hs]
  decide

/-- C18, amended: for a group size `G = 2 ^ a`, `wavefront_reduce<G>` returns to the first lane of
a wavefront the sum of the `G` values of the wavefront, in `a = log2(G)` rounds with offsets
`G / 2`, `G / 4`, ..., 1. -/
theorem wavefront_reduce_contract (G a : Nat) (hG : G = 2 ^ a) (ha : a ≤ 31) (val : Nat → R)
    (tid : Nat) (hlane : tid % G = 0) :
    wavefront_reduce G G val tid = ∑ l ∈ Finset.range G, val (tid + l) ∧
    wavefront_reduce_offsets G = (List.range a).map (fun j => G / 2 ^ (j + 1)) ∧
    (wavefront_reduce_offsets G).length = rocblas_log2ui (G : Int) ∧
    rocblas_log2ui (G : Int) = a := by
  have hoff : wavefront_reduce_offsets G = (List.range a).map (fun j => G / 2 ^ (j + 1)) := by
    rw [hG, wavefront_reduce_offsets_pow a ha]
    apply List.map_congr_left
    intro j hj
    have hj2 := List.mem_range.mp hj
    rw [Nat.pow_div (by omega) (by norm_num)]
    congr 1
    omega
  have hlog : rocblas_log2ui (G : Int) = a := by
    rw [hG]
    exact rocblas_log2ui_pow a ha
  refine ⟨?_, hoff, ?_, hlog⟩
  · rw [hG]
    exact wavefront_reduce_pow (2 ^ a) a ha val tid (by rw [← hG, hlane]; omega)
  · rw [hoff, hlog, List.length_map, List.length_range]

/-- Witness of C18: a wavefront of 64 lanes, lane `l` holding `l`. -/
theorem wavefront_reduce_contract_witness :
    64 = 2 ^ 6 ∧ 6 ≤ 31 ∧ 0 % 64 = 0 ∧
    wavefront_reduce 64 64 (fun l => (l : Int)) 0 = ∑ l ∈ Finset.range 64, ((0 + l : Nat) : Int) :=
  ⟨by decide, by decide, by decide,
    (wavefront_reduce_contract 64 6 (by decide) (by decide) (fun l => (l : Int)) 0
      (by decide)).1⟩

end ReducerStages

/-! ## Index traces of the kernels -/

section Traces

variable {R : Type} [CommRing R]

end Traces

section StridedTraces

variable {R : Type} [CommRing R]

end StridedTraces

/-! ## The cross-block reduction and the layout of the block sums -/

section ReduceSlots

variable {R : Type} [CommRing R]

end ReduceSlots

section Layout

variable {R : Type}

end Layout

/-! ## Writers of the output slots -/

section WriterSets

variable {R : Type}

/-- The stores of thread 0 of a work-partition block are those of `store_block_sum`. -/
theorem store_block_sum_writes (v : R) (workspace out : Loc) (g bx b : Nat) (m : Loc → R) :
    store_block_sum v workspace out g bx b m
      = (partition_kernel_writes workspace out g bx b 0).foldl (fun m p => write m p v) m := by
  simp only [store_block_sum, partition_kernel_writes, if_true]
  split_ifs <;> rfl

end WriterSets

section Writers

variable {R : Type} [CommRing R]

/-- The store of thread 0 of a reduction block is that of `rocblas_dot_kernel_reduce`. -/
theorem rocblas_dot_kernel_reduce_writes_eq (dev : Device R) (NB WIN n_sums : Nat)
    (inp out : Loc) (g bd bx b : Nat) (m : Loc → R) :
    rocblas_dot_kernel_reduce dev NB WIN n_sums inp out g bd bx b m
      = (rocblas_dot_kernel_reduce_writes out b 0).foldl
          (fun m2 p => write m2 p (rocblas_dot_block_reduce dev NB
            (rocblas_dot_kernel_reduce_sum WIN n_sums inp m g bd b) 0)) m := rfl

end Writers

/-! ## Unroll width -/

section UnrollWidth

/-- C21: `rocblas_dot_WIN(nb)` is 2 for `nb >= 8`, 4 for `4 <= nb < 8` and 8 otherwise;
`rocblas_dot_WIN<T>()` is `rocblas_dot_WIN(sizeof(T))`; the value is one of 2, 4, 8, a power of
two. -/
theorem unroll_width (nb : Nat) :
    (8 ≤ nb → rocblas_dot_WIN nb = 2) ∧
    (4 ≤ nb → nb < 8 → rocblas_dot_WIN nb = 4) ∧
    (nb < 4 → rocblas_dot_WIN nb = 8) ∧
    rocblas_dot_WIN_T nb = rocblas_dot_WIN nb ∧
    (rocblas_dot_WIN nb = 2 ∨ rocblas_dot_WIN nb = 4 ∨ rocblas_dot_WIN nb = 8) ∧
    (∃ k, rocblas_dot_WIN nb = 2 ^ k) := by
  refine ⟨?_, ?_, ?_, rfl, ?_, ?_⟩
  · intro h
    unfold rocblas_dot_WIN
    rw [if_pos h]
  · intro h1 h2
    unfold rocblas_dot_WIN
    rw [if_neg (by omega), if_pos h1]
  · intro h
    unfold rocblas_dot_WIN
    rw [if_neg (by omega), if_neg (by omega)]
  · unfold rocblas_dot_WIN
    split_ifs
    · exact Or.inl rfl
    · exact Or.inr (Or.inl rfl)
    · exact Or.inr (Or.inr rfl)
  · unfold rocblas_dot_WIN
    split_ifs
    · exact ⟨1, rfl⟩
    · exact ⟨2, rfl⟩
    · exact ⟨3, rfl⟩

/-- Witness of C21: 4-byte elements are unrolled four times. -/
theorem unroll_width_witness : 4 ≤ 4 ∧ 4 < 8 ∧ rocblas_dot_WIN 4 = 4 :=
  ⟨by decide, by decide, (unroll_width 4).2.1 (by decide) (by decide)⟩

end UnrollWidth

/-! ## Narrowing of offsets and strides -/

section Narrowing

variable {R : Type} [CommRing R]

/-- Where the extent `(n - 1) * |inc|` of a vector is below `2 ^ 31`, the 32-bit product
`i * inc` of every logical index `i < n` is the exact product. -/
theorem wrap32_mul_of_extent (n inc : Int) (i : Nat) (hi : (i : Int) < n)
    (hext : (n - 1) * |inc| < 2147483648) : wrap32 ((i : Int) * inc) = (i : Int) * inc := by
  have hi0 : (0 : Int) ≤ (i : Int) := Int.natCast_nonneg i
  have habs : |(i : Int) * inc| ≤ (n - 1) * |inc| := by
    rw [abs_mul, abs_of_nonneg hi0]
    exact mul_le_mul_of_nonneg_right (by omega) (abs_nonneg inc)
  have h1 := neg_abs_le ((i : Int) * inc)
  have h2 := le_abs_self ((i : Int) * inc)
  apply wrap32_of_range <;> omega

/-- C22 at a failing input: `n = 3`, `incx = incy = 2^30` (extent `2^31` elements), `x` starting
at address 5 and `y` at address 7, input memory holding `a` at address `a`.  For logical index 2
the 32-bit product is `-2^31`, not `2^31`: thread 2 of `rocblas_dot_kernel` multiplies the
elements at `7 - 2^31` and `5 - 2^31` instead of those at `7 + 2^31` and `5 + 2^31`, and thread 2
of `rocblas_dot_kernel_magsq` squares the element at `5 - 2^31`. -/
theorem strided_offset_wraps :
    wrap32 (((2 : Nat) : Int) * 1073741824) = -2147483648 ∧
    wrap32 (((2 : Nat) : Int) * 1073741824) ≠ ((2 : Nat) : Int) * 1073741824 ∧
    rocblas_dot_kernel_sum sample_device 4 false id false 3 0 5 1073741824 0 0 7 1073741824 0
        1 512 0 0 2
      = 4611685992657584163 ∧
    dot_term sample_device false id 5 7 (((2 : Nat) : Int) * 1073741824)
        (((2 : Nat) : Int) * 1073741824)
      = 4611686044197191715 ∧
    rocblas_dot_kernel_magsq_sum sample_device 4 false id false 3 0 5 1073741824 0 1 512 0 0 2
      = 4611685996952551449 ∧
    dot_term sample_device false id 5 5 (((2 : Nat) : Int) * 1073741824)
        (((2 : Nat) : Int) * 1073741824)
      = 4611686039902224409 := by
  refine ⟨by decide, by decide, ?_, ?_, ?_, ?_⟩
  · simp [rocblas_dot_kernel_sum, strided_loop, dot_term, load_ptr_batch, sample_device, wrap32]
  · simp [dot_term, sample_device]
  · simp [rocblas_dot_kernel_magsq_sum, strided_loop, load_ptr_batch, sample_device, wrap32]
  · simp [dot_term, sample_device]

/-- C23 at a failing input: two batch entries with `stridex = stridey = 2^32`, `n = 1`, unit
increments, `x` at address 0 and `y` at address 100, input memory holding `a` at address `a`.
The kernels take `stridey` as a 32-bit `rocblas_int`, so entry 1 of `y` is sought at
`100 + 1 * 0` while entry 1 of `x` is at `0 + 1 * 2^32`: both dual-vector kernels accumulate
`100 * 2^32` for entry 1, and so does the template for 8-byte and for 4-byte elements, where the
reference value is `(100 + 2^32) * 2^32`. -/
theorem stridey_is_narrowed :
    wrap32 4294967296 = 0 ∧
    load_ptr_batch sample_device false 0 1 0 4294967296 = 4294967296 ∧
    load_ptr_batch sample_device false 100 1 0 4294967296 = 4294967396 ∧
    rocblas_dot_kernel_inc1_sum sample_device 2 false id false 1 0 0 4294967296
        100 0 4294967296 1 512 0 1 0
      = 429496729600 ∧
    rocblas_dot_kernel_sum sample_device 4 false id false 1 0 0 1 4294967296
        100 0 1 4294967296 1 512 0 1 0
      = 429496729600 ∧
    (rocblas_internal_dot_template sample_device 512 false id 8 false device_handle 1
      0 0 1 4294967296 100 0 1 4294967296 2 sample_state).2.mem (Loc.results 1)
      = 429496729600 ∧
    (rocblas_internal_dot_template sample_device 512 false id 4 false device_handle 1
      0 0 1 4294967296 100 0 1 4294967296 2 sample_state).2.mem (Loc.results 1)
      = 429496729600 ∧
    dot_reference sample_device false id false 1 0 0 1 4294967296 100 0 1 4294967296 1
      = 18446744503206281216 := by
  refine ⟨by decide, ?_, ?_, ?_, ?_, ?_, ?_, ?_⟩
  · simp [load_ptr_batch]
  · simp [load_ptr_batch]
  · simp [rocblas_dot_kernel_inc1_sum, strided_loop, dot_term, load_ptr_batch, sample_device,
      wrap32]
  · simp [rocblas_dot_kernel_sum, strided_loop, dot_term, load_ptr_batch, sample_device, wrap32]
  · rw [dot_template_code_value sample_device 512 6 3 rfl (by decide) rfl (by decide) false id 8
      false device_handle 1 0 0 1 4294967296 100 0 1 4294967296 2 sample_state (by decide)
      (by decide) (by decide) (fun _ => rfl) 1 (by decide)]
    simp [dot_code_value, dot_term, load_ptr_batch, sample_device, wrap32]
  · rw [dot_template_code_value sample_device 512 6 3 rfl (by decide) rfl (by decide) false id 4
      false device_handle 1 0 0 1 4294967296 100 0 1 4294967296 2 sample_state (by decide)
      (by decide) (by decide) (fun _ => rfl) 1 (by decide)]
    simp [dot_code_value, dot_term, load_ptr_batch, sample_device, wrap32]
  · simp [dot_reference, dot_term, load_ptr_batch, sample_device]

end Narrowing

/-! ## The round count of the wavefront reducer -/

section Rounds

variable {R : Type} [CommRing R]

theorem rocblas_log2ui_loop_zero (fuel v : Nat) : rocblas_log2ui_loop fuel 0 v = v := by
  cases fuel with
  | zero => rfl
  | succ f => simp [rocblas_log2ui_loop]

/-- The rounds of `wavefront_reduce` are one exchange-and-add per recorded offset. -/
theorem wavefront_reduce_loop_eq_foldl (G r offset : Nat) (val : Nat → R) :
    wavefront_reduce_loop G r offset val
      = (wavefront_reduce_loop_offsets r offset).foldl
          (fun v o => fun t => v t + shfl_down G v o t) val := by
  induction r generalizing offset val with
  | zero => rfl
  | succ r ih => rw [wavefront_reduce_loop, wavefront_reduce_loop_offsets, List.foldl_cons, ih]

/-- Every positive `m` lies between two consecutive powers of two. -/
theorem exists_floor_log2 (m : Nat) (hm : 1 ≤ m) : ∃ k, 2 ^ k ≤ m ∧ m < 2 ^ (k + 1) :=
  ⟨Nat.log2 m, Nat.log2_self_le (by omega), Nat.lt_log2_self⟩

/-- C24: for an `int x` with `1 <= x <= 2^31 - 1` the loop of `rocblas_log2ui` ends by its own
condition (any iteration bound above the result gives the same result) and the result `v`
satisfies `2^v <= x < 2^(v+1)`; `rocblas_log2ui(2^k) = k` for `k <= 30`; `rocblas_log2ui(0) = 0`;
and `wavefront_reduce<2^k>` makes one exchange-and-add round per offset of the list
`2^(k-1), ..., 1`, which has `k` entries. -/
theorem rocblas_log2ui_total (x : Int) (k : Nat) (hx1 : 1 ≤ x) (hx2 : x ≤ 2147483647)
    (hk : k ≤ 30) :
    (2 : Int) ^ rocblas_log2ui x ≤ x ∧
    x < (2 : Int) ^ (rocblas_log2ui x + 1) ∧
    (∀ fuel, rocblas_log2ui x < fuel →
      rocblas_log2ui_loop fuel (x % 4294967296).toNat 0 = rocblas_log2ui x) ∧
    rocblas_log2ui ((2 : Int) ^ k) = k ∧
    rocblas_log2ui 0 = 0 ∧
    (∀ fuel, rocblas_log2ui_loop fuel ((0 : Int) % 4294967296).toNat 0 = 0) ∧
    wavefront_reduce_offsets (2 ^ k) = (List.range k).map (fun j => 2 ^ (k - 1 - j)) ∧
    (wavefront_reduce_offsets (2 ^ k)).length = k ∧
    (∀ (G : Nat) (val : Nat → R),
      wavefront_reduce G (2 ^ k) val
        = (wavefront_reduce_offsets (2 ^ k)).foldl
            (fun v o => fun t => v t + shfl_down G v o t) val) := by
  have hmod : (x % 4294967296).toNat = x.toNat := by
    rw [Int.emod_eq_of_lt (by omega) (by omega)]
  have hm1 : 1 ≤ x.toNat := by omega
  obtain ⟨v, hv1, hv2⟩ := exists_floor_log2 x.toNat hm1
  have hv : v ≤ 30 := by
    by_contra hc
    have h3 : (2 : Nat) ^ 31 ≤ 2 ^ v := Nat.pow_le_pow_right (by norm_num) (by omega)
    omega
  have hloop : ∀ fuel, v < fuel → rocblas_log2ui_loop fuel (x % 4294967296).toNat 0 = v := by
    intro fuel hf
    rw [hmod, rocblas_log2ui_loop_floor v x.toNat fuel 0 hv1 hv2 hf, Nat.zero_add]
  have hres : rocblas_log2ui x = v := hloop 32 (by omega)
  have hcast : (x.toNat : Int) = x := Int.toNat_of_nonneg (by omega)
  have hoff := wavefront_reduce_offsets_pow k (by omega)
  refine ⟨?_, ?_, ?_, ?_, ?_, ?_, hoff, ?_, ?_⟩
  · rw [hres, ← hcast]
    exact_mod_cast hv1
  · rw [hres, ← hcast]
    exact_mod_cast hv2
  · intro fuel hf
    rw [hres] at hf ⊢
    exact hloop fuel hf
  · have h := rocblas_log2ui_pow k (by omega)
    rw [Nat.cast_pow] at h
    exact h
  · rfl
  · intro fuel
    exact rocblas_log2ui_loop_zero fuel 0
  · rw [hoff, List.length_map, List.length_range]
  · intro G val
    unfold wavefront_reduce wavefront_reduce_offsets
    exact wavefront_reduce_loop_eq_foldl G _ _ val

/-- Witness of C24: `x = 100` lies between `2^6` and `2^7`. -/
theorem rocblas_log2ui_total_witness :
    (1 : Int) ≤ 100 ∧ (100 : Int) ≤ 2147483647 ∧ 6 ≤ 30 ∧
    (2 : Int) ^ rocblas_log2ui 100 ≤ 100 ∧ (100 : Int) < (2 : Int) ^ (rocblas_log2ui 100 + 1) ∧
    rocblas_log2ui ((2 : Int) ^ 6) = 6 :=
  ⟨by decide, by decide, by decide,
    (@rocblas_log2ui_total Int _ 100 6 (by decide) (by decide) (by decide)).1,
    (@rocblas_log2ui_total Int _ 100 6 (by decide) (by decide) (by decide)).2.1,
    (@rocblas_log2ui_total Int _ 100 6 (by decide) (by decide) (by decide)).2.2.2.1⟩

end Rounds

end RocblasDot
